import Mathlib

/-!
# my_shell: tokenizer, line parser, process launcher and pipeline orchestrator

A shallow embedding of `src/util.c` and `src/run_shell_rl.c`.

Memory model. A character buffer is a `List Nat` of byte values; a `char *`
is an offset into it.  Reading at or past the end of the list yields the
terminating NUL, so every list stands for a NUL-terminated buffer (the
terminator is either a `0` inside the list or the implicit one after it).
An `argv` array is a `List (Option Nat)`: a slot holds a pointer (an offset
into the buffer) or `NULL` (`none`); a store outside the allocated slots is
undefined behaviour and makes the embedded function return `none`.
-/

namespace MyShell

/-! ## util.c : tokenize -/

/-- C `isspace` in the "C" locale: space, `\t`, `\n`, `\v`, `\f`, `\r`. -/
def isspace (c : Nat) : Bool := c == 32 || (9 ≤ c && c ≤ 13)

/-- The byte `*p`; past the end of the stored bytes it is the terminating NUL. -/
def deref (mem : List Nat) (p : Nat) : Nat := mem.getD p 0

/-- The C string that starts at offset `p`: the bytes up to the first NUL. -/
def cstr (mem : List Nat) (p : Nat) : List Nat := (mem.drop p).takeWhile (fun c => c != 0)

/-- C `strlen`. -/
def strlen (mem : List Nat) (p : Nat) : Nat := (cstr mem p).length

/-- Loop `while(*buffer && isspace(*buffer)) buffer++;` of `tokenize` (lines 32-34).
The first argument bounds the bytes left before the end of the stored bytes;
when it is `0` the pointer reads the terminator and the loop is over. -/
def skip_space (mem : List Nat) : Nat → Nat → Nat
  | 0, buffer => buffer
  | k + 1, buffer =>
    if deref mem buffer != 0 && isspace (deref mem buffer) then skip_space mem k (buffer + 1)
    else buffer

/-- Loop `while(*buffer && !isspace(*buffer)) buffer++;` of `tokenize` (lines 40-42). -/
def skip_token (mem : List Nat) : Nat → Nat → Nat
  | 0, buffer => buffer
  | k + 1, buffer =>
    if deref mem buffer != 0 && !isspace (deref mem buffer) then skip_token mem k (buffer + 1)
    else buffer

/-- Loop `while(*buffer && isspace(*buffer)) *(buffer++)=0;` of `tokenize` (lines 44-46). -/
def mark_end : Nat → List Nat → Nat → List Nat × Nat
  | 0, mem, buffer => (mem, buffer)
  | k + 1, mem, buffer =>
    if deref mem buffer != 0 && isspace (deref mem buffer) then mark_end k (mem.set buffer 0) (buffer + 1)
    else (mem, buffer)

/-- Store `argv[i] = v`; `none` when slot `i` is outside the array. -/
def argv_store (argv : List (Option Nat)) (i : Nat) (v : Option Nat) : Option (List (Option Nat)) :=
  if i < argv.length then some (argv.set i v) else none

/-- Main loop `while(*buffer && n<maxargs)` of `tokenize` (lines 37-47).  The
first argument bounds the iterations left (`maxargs - n`); when it is `0`
the test `n<maxargs` fails and the loop is over.  Result: memory, argv, `n`. -/
def tokenize_loop (maxargs : Int) : Nat → List Nat → List (Option Nat) → Nat → Nat →
    Option (List Nat × List (Option Nat) × Nat)
  | 0, mem, argv, _, n => some (mem, argv, n)
  | k + 1, mem, argv, buffer, n =>
    if deref mem buffer != 0 && decide ((n : Int) < maxargs) then
      match argv_store argv n (some buffer) with
      | none => none
      | some argv1 =>
        let buffer1 := skip_token mem (mem.length - buffer) buffer
        let r := mark_end (mem.length - buffer1) mem buffer1
        tokenize_loop maxargs k r.1 argv1 r.2 (n + 1)
    else some (mem, argv, n)

/-- `int tokenize(char *buffer, char *argv[], int maxargs)` (util.c lines 29-51).
Result: the return value `n`, the buffer after the call, `argv` after the call. -/
def tokenize (mem : List Nat) (buffer : Nat) (argv : List (Option Nat)) (maxargs : Int) :
    Option (Nat × List Nat × List (Option Nat)) :=
  let buffer0 := skip_space mem (mem.length - buffer) buffer
  match tokenize_loop maxargs maxargs.toNat mem argv buffer0 0 with
  | none => none
  | some (mem1, argv1, n) =>
    match argv_store argv1 n none with
    | none => none
    | some argv2 => some (n, mem1, argv2)

/-- The maximal runs of non-whitespace characters of a string, left to right:
the pieces between whitespace characters, the empty pieces dropped. -/
def runs (s : List Nat) : List (List Nat) :=
  (s.splitOnP isspace).filter (fun t => !t.isEmpty)

/-- Pair each piece of a split string with the offset at which it starts, when
the first piece starts at offset `o` and one separator follows each piece. -/
def pieces_at : Nat → List (List Nat) → List (Nat × List Nat)
  | _, [] => []
  | o, p :: ps => (o, p) :: pieces_at (o + p.length + 1) ps

/-- The maximal runs of non-whitespace characters of a string that starts at
offset `o`, each with the offset of its first character, left to right. -/
def runs_at (o : Nat) (s : List Nat) : List (Nat × List Nat) :=
  (pieces_at o (s.splitOnP isspace)).filter (fun x => !x.2.isEmpty)

/-! ## run_shell_rl.c : the token pre-count of handle_line -/

/-- Loop `while (*ptr) { if (isspace(*ptr) && !isspace(last)) toks++; last = *ptr; ptr++; }`
of `handle_line` (lines 144-149).  The first argument bounds the bytes left
before the end of the stored bytes.  Result: `last` and `toks` after the loop. -/
def count_loop (mem : List Nat) : Nat → Nat → Nat → Int → Nat × Int
  | 0, _, last, toks => (last, toks)
  | k + 1, ptr, last, toks =>
    if deref mem ptr != 0 then
      count_loop mem k (ptr + 1) (deref mem ptr)
        (if isspace (deref mem ptr) && !isspace last then toks + 1 else toks)
    else (last, toks)

/-- Token pre-count of `handle_line` (lines 141-151): `last = ' '`, `toks = 1`,
the loop, then `if (isspace(last)) toks--;`. -/
def count_toks (mem : List Nat) (chunk : Nat) : Int :=
  let r := count_loop mem (mem.length - chunk) chunk 32 1
  if isspace r.1 then r.2 - 1 else r.2

/-! ## util.c : run_child, the descriptor set-up in the child

The descriptor table of the child is a list of slots: slot `fd` holds the open
file (a number naming it) or `none` when the descriptor is closed; descriptors
past the end of the list are closed. -/

/-- The open file a descriptor refers to, `none` when the descriptor is closed. -/
def fd_file (tbl : List (Option Nat)) (fd : Nat) : Option Nat := tbl.getD fd none

/-- The lowest descriptor number that is not open. -/
def lowest_free : List (Option Nat) → Nat
  | [] => 0
  | none :: _ => 0
  | some _ :: rest => lowest_free rest + 1

/-- Make descriptor `fd` refer to file `f` (whatever it referred to is dropped). -/
def fd_install : List (Option Nat) → Nat → Nat → List (Option Nat)
  | [], 0, f => [some f]
  | [], fd + 1, f => none :: fd_install [] fd f
  | _ :: rest, 0, f => some f :: rest
  | x :: rest, fd + 1, f => x :: fd_install rest fd f

/-- POSIX `dup(oldfd)`: the lowest free descriptor is made to refer to the file
of `oldfd` and is returned; `none` (the call returns -1) when `oldfd` is not open. -/
def dup (tbl : List (Option Nat)) (oldfd : Nat) : Option (List (Option Nat) × Nat) :=
  match fd_file tbl oldfd with
  | none => none
  | some f => some (fd_install tbl (lowest_free tbl) f, lowest_free tbl)

/-- POSIX `dup2(oldfd, newfd)`: `newfd` is made to refer to the file of `oldfd`
and is returned; `none` (the call returns -1) when `oldfd` is not open. -/
def dup2 (tbl : List (Option Nat)) (oldfd newfd : Nat) : Option (List (Option Nat) × Nat) :=
  match fd_file tbl oldfd with
  | none => none
  | some f => some (fd_install tbl newfd f, newfd)

/-- How a piece of the child's set-up ends. -/
inductive Setup (α : Type) where
  /-- Control reaches the next statement. -/
  | done : α → Setup α
  /-- An `RC_CHECK` failed: `run_child_error()` ends the child. -/
  | child_error : Setup α
  /-- The iteration bound handed to the embedding was too small. -/
  | more_fuel : Setup α
  deriving DecidableEq, Repr

/-- Loop `while(child_stderr==STDIN_FILENO || child_stderr==STDOUT_FILENO)
{ child_stderr=dup(child_stderr); RC_CHECK(child_stderr>=0); }` of `run_child`
(lines 93-97); the first argument bounds the iterations. -/
def move_stderr : Nat → List (Option Nat) → Nat → Setup (List (Option Nat) × Nat)
  | 0, tbl, child_stderr =>
    if child_stderr = 0 ∨ child_stderr = 1 then Setup.more_fuel else Setup.done (tbl, child_stderr)
  | fuel + 1, tbl, child_stderr =>
    if child_stderr = 0 ∨ child_stderr = 1 then
      match dup tbl child_stderr with
      | none => Setup.child_error
      | some (tbl1, d) => move_stderr fuel tbl1 d
    else Setup.done (tbl, child_stderr)

/-- The child branch of `run_child` from line 87 to line 104: move `child_stdout`
off descriptor 0, move `child_stderr` off descriptors 0 and 1, then force the
three descriptors onto 0, 1 and 2 with `dup2`.  Result: the child's table. -/
def run_child_setup (fuel : Nat) (tbl : List (Option Nat))
    (child_stdin child_stdout child_stderr : Nat) : Setup (List (Option Nat)) :=
  -- if(child_stdout==STDIN_FILENO) { child_stdout=dup(child_stdout); RC_CHECK(child_stdout>=0); }
  let moved : Setup (List (Option Nat) × Nat) :=
    if child_stdout = 0 then
      match dup tbl child_stdout with
      | none => Setup.child_error
      | some r => Setup.done r
    else Setup.done (tbl, child_stdout)
  match moved with
  | Setup.child_error => Setup.child_error
  | Setup.more_fuel => Setup.more_fuel
  | Setup.done (tbl1, child_stdout1) =>
    match move_stderr fuel tbl1 child_stderr with
    | Setup.child_error => Setup.child_error
    | Setup.more_fuel => Setup.more_fuel
    | Setup.done (tbl2, child_stderr1) =>
      -- child_stdin=dup2(child_stdin,STDIN_FILENO); RC_CHECK(child_stdin==STDIN_FILENO);
      match dup2 tbl2 child_stdin 0 with
      | none => Setup.child_error
      | some (tbl3, r_in) =>
        if r_in ≠ 0 then Setup.child_error else
        -- child_stdout=dup2(child_stdout,STDOUT_FILENO); RC_CHECK(child_stdout==STDOUT_FILENO);
        match dup2 tbl3 child_stdout1 1 with
        | none => Setup.child_error
        | some (tbl4, r_out) =>
          if r_out ≠ 1 then Setup.child_error else
          -- child_stderr=dup2(child_stderr,STDERR_FILENO); RC_CHECK(child_stderr==STDERR_FILENO);
          match dup2 tbl4 child_stderr1 2 with
          | none => Setup.child_error
          | some (tbl5, r_err) =>
            if r_err ≠ 2 then Setup.child_error else Setup.done tbl5

/-! ## run_shell_rl.c : the shell process and its environment

The shell process is followed through the descriptors it has open, the global
`child_pid` and the trace of the system calls it makes.  What the operating
system answers (whether a `pipe`, `open`, `fork` or `waitpid` succeeds) is a
parameter, `Env`.  `open` and `pipe` hand out the lowest free descriptor
numbers; `close` succeeds exactly on an open descriptor; `malloc` succeeds.
Output (`perror`, `printf`) and `free` leave this state as it is and are not
part of the embedding.

A `for` or `while` loop is a function by recursion on a bound of the
iterations left, entered with the exact distance to the end of the loop (the
bytes left in the buffer, `argc - i`, `nchunks - cur_chunk`), so that at bound 0
the test of the loop fails; where no such distance is at hand the bound is a
parameter and running out of it is the result `more_fuel`. -/

/-- How a call made by the shell process ends. -/
inductive Outcome where
  /-- The function returns this value. -/
  | ret (v : Int)
  /-- The function calls `exit` with this status: the shell process terminates. -/
  | exited (status : Int)
  /-- The function never returns: `close_pipe` retries a `close` that keeps
  failing, or `start_prog` is in a `waitpid` that does not return. -/
  | hang
  /-- Undefined behaviour: a NULL pointer is dereferenced or an array is left. -/
  | undefined
  /-- The iteration bound handed to the embedding was too small. -/
  | more_fuel
  deriving DecidableEq, Repr

/-- A system call made by the shell process, with its result. -/
inductive Event where
  /-- A successful `pipe(p)`: `p[0]`, `p[1]`. -/
  | pipe (rd wr : Int)
  /-- A successful `open(path, ...)` and the descriptor it returned. -/
  | opened (path : List Nat) (fd : Int)
  /-- A call `run_child(progname, argv, child_stdin, child_stdout, child_stderr)` made
  for pipeline stage `pipeno`, and the pid it returned (-1 when `fork` failed). -/
  | run_child (pipeno : Nat) (progname : Option (List Nat)) (argv : List (Option (List Nat)))
      (child_stdin child_stdout child_stderr : Int) (pid : Int)
  /-- A call `waitpid(pid, &status, 0)`. -/
  | waitpid (pid : Int)
  /-- A successful `close(fd)`. -/
  | close (fd : Int)
  /-- A call `kill(pid, signo)`. -/
  | kill (pid : Int) (signo : Int)
  deriving DecidableEq, Repr

/-- The state of the shell process. -/
structure Shell where
  /-- The descriptors that are open in the shell process. -/
  fds : List Int
  /-- The global `child_pid` (line 36). -/
  child_pid : Int
  /-- The system calls made so far, oldest first. -/
  trace : List Event
  deriving DecidableEq, Repr

/-- What `open` answers. -/
inductive OpenResult where
  /-- A descriptor is returned. -/
  | ok
  /-- -1 with `errno == ENOENT`. -/
  | enoent
  /-- -1 with another `errno`. -/
  | failed
  deriving DecidableEq, Repr

/-- How the call `waitpid(child_pid, &status, 0)` of `start_prog` ends. -/
inductive WaitResult where
  /-- The child has exited; its pid is returned. -/
  | ok
  /-- -1 with `errno == EINTR`. -/
  | eintr
  /-- -1 with another `errno`. -/
  | failed
  /-- The call never returns, because the child never exits while the shell waits
  for it: it runs for ever, it is blocked on a pipe whose other end only the
  shell holds (the next stage is launched only after this wait), or it has been
  stopped and the wait was restarted after the signal handler. -/
  | blocks
  deriving DecidableEq, Repr

/-- The answers of the operating system, by the pipeline stage (and for `open`
the argument index) on whose behalf the call is made. -/
structure Env where
  /-- Does the `pipe` call that precedes the launch of this stage succeed. -/
  pipe_ok : Nat → Bool
  /-- The answer to the `open` made for the operator at this index of this stage. -/
  open_result : Nat → Nat → OpenResult
  /-- What `fork` returns in the shell for this stage: the child's pid, or -1. -/
  fork_result : Nat → Int
  /-- How the `waitpid` on this stage's child ends. -/
  wait_result : Nat → WaitResult
  /-- Is a SIGTSTP delivered to the shell, so that `sigtstp_handler` runs, while it
  is in the `waitpid` on this stage's child. -/
  wait_sigtstp : Nat → Bool
  /-- The indeterminate initial contents of the local array `p1`. -/
  p1_init : Int × Int
  /-- The indeterminate initial contents of the local array `p2`. -/
  p2_init : Int × Int

/-- One more than the largest descriptor of the list (0 for the empty list). -/
def fd_bound : List Int → Nat
  | [] => 0
  | d :: rest => max (d.toNat + 1) (fd_bound rest)

/-- Search upwards from `c`, at most `k` steps, for a number that is not open. -/
def lowest_unused (fds : List Int) : Nat → Nat → Nat
  | 0, c => c
  | k + 1, c => if (c : Int) ∈ fds then lowest_unused fds k (c + 1) else c

/-- The lowest descriptor number that is not open in the shell process. -/
def lowest_free_fd (fds : List Int) : Int := (lowest_unused fds (fd_bound fds) 0 : Nat)

/-- `static void sigtstp_handler(int signo)` (lines 357-363). -/
def sigtstp_handler (sh : Shell) (signo : Int) : Shell :=
  if sh.child_pid > 0 then
    { sh with trace := sh.trace ++ [Event.kill sh.child_pid signo], child_pid := -127 }
  else sh

/-- `pipe(p)` made before the launch of stage `k`, as `handle_line` uses it
(`if (pipe(p)) perror(...)`): on success the array holds the two lowest free
descriptors; on failure the array is left as it was and execution goes on. -/
def sys_pipe (env : Env) (k : Nat) (p : Int × Int) (sh : Shell) : (Int × Int) × Shell :=
  if env.pipe_ok k then
    let rd := lowest_free_fd sh.fds
    let wr := lowest_free_fd (rd :: sh.fds)
    ((rd, wr), { sh with fds := wr :: rd :: sh.fds, trace := sh.trace ++ [Event.pipe rd wr] })
  else (p, sh)

/-- `void close_pipe(int fd)` (lines 331-340).  `close` returns 0 on an open
descriptor.  On a descriptor that is not open it returns -1, which is neither
`EBADF` nor `EIO`, so the loop calls `close` again, for ever: `none`. -/
def close_pipe (sh : Shell) (fd : Int) : Option Shell :=
  if fd ∈ sh.fds then
    some { sh with fds := sh.fds.filter (fun d => d ≠ fd), trace := sh.trace ++ [Event.close fd] }
  else none

/-- The loop `for (i = 0; i < argc; i++)` of `start_prog` (lines 265-290).  The
first argument bounds the iterations left (`argc - i`).  An early end of
`start_prog` is
`Except.error`; `Except.ok` carries `argv`, `fd_in`, `fd_out` and the shell
after the loop.  `">"` is `[62]`, `"<"` is `[60]`.  `open` on a NULL path fails
with `EFAULT`, so with an `errno` other than `ENOENT`. -/
def redirect_loop (env : Env) (pipeno numpipes : Nat) (argc : Int) :
    Nat → Nat → List (Option (List Nat)) → Int → Int → Shell →
    Except (Outcome × Shell) (List (Option (List Nat)) × Int × Int × Shell)
  | 0, _, argv, fd_in, fd_out, sh => Except.ok (argv, fd_in, fd_out, sh)
  | k + 1, i, argv, fd_in, fd_out, sh =>
    if (i : Int) < argc then
      match argv[i]? with
      | none => Except.error (Outcome.undefined, sh)
      | some none => Except.error (Outcome.undefined, sh)
      | some (some tok) =>
        if tok = [62] ∨ tok = [60] then
          if numpipes > 1 ∧ tok = [62] ∧ pipeno + 1 < numpipes then
            Except.error (Outcome.ret 1, sh)
          else if numpipes > 1 ∧ tok = [60] ∧ pipeno ≠ 0 then
            Except.error (Outcome.ret 1, sh)
          else if (i : Int) ≥ argc then
            Except.error (Outcome.ret 1, sh)
          else
            match argv[i + 1]? with
            | none => Except.error (Outcome.undefined, sh)
            | some none => Except.error (Outcome.exited 1, sh)
            | some (some path) =>
              match env.open_result pipeno i with
              | OpenResult.enoent => Except.error (Outcome.ret 1, sh)
              | OpenResult.failed => Except.error (Outcome.exited 1, sh)
              | OpenResult.ok =>
                let fd_tmp := lowest_free_fd sh.fds
                redirect_loop env pipeno numpipes argc k (i + 1) (argv.set i none)
                  (if tok = [60] then fd_tmp else fd_in)
                  (if tok = [62] then fd_tmp else fd_out)
                  { sh with fds := fd_tmp :: sh.fds,
                            trace := sh.trace ++ [Event.opened path fd_tmp] }
        else redirect_loop env pipeno numpipes argc k (i + 1) argv fd_in fd_out sh
    else Except.ok (argv, fd_in, fd_out, sh)

/-- Lines 292-320 of `start_prog`: launch the program, in the background when the
last argument is `"&"` (`[38]`), and wait for a foreground child.  The wait may
never return (`Outcome.hang`), and `sigtstp_handler` may run during it.
`EXIT_FAILURE` is 1; SIGTSTP is 20. -/
def launch_prog (env : Env) (sh : Shell) (pipeno : Nat) (progname : Option (List Nat))
    (argc : Int) (argv : List (Option (List Nat))) (fd_in fd_out : Int) : Outcome × Shell :=
  if argc < 1 then (Outcome.undefined, sh)
  else
    match argv[(argc - 1).toNat]? with
    | none => (Outcome.undefined, sh)
    | some none => (Outcome.undefined, sh)
    | some (some last) =>
      if last = [38] then
        let argv1 := argv.set (argc - 1).toNat none
        let pid := env.fork_result pipeno
        let call := Event.run_child pipeno progname argv1 fd_in fd_out 2 pid
        let sh1 : Shell := { sh with trace := sh.trace ++ [call], child_pid := pid }
        if pid < 0 then (Outcome.ret 0, { sh1 with child_pid := -127 })
        else (Outcome.ret 0, sh1)
      else
        let pid := env.fork_result pipeno
        let call := Event.run_child pipeno progname argv fd_in fd_out 2 pid
        let sh1 : Shell := { sh with trace := sh.trace ++ [call], child_pid := pid }
        if pid < 0 then (Outcome.ret 0, sh1)
        else
          let sh2 : Shell := { sh1 with trace := sh1.trace ++ [Event.waitpid pid] }
          let sh3 : Shell := if env.wait_sigtstp pipeno then sigtstp_handler sh2 20 else sh2
          match env.wait_result pipeno with
          | WaitResult.blocks => (Outcome.hang, sh3)
          | WaitResult.failed => (Outcome.exited 1, sh3)
          | WaitResult.eintr => (Outcome.ret 0, sh3)
          | WaitResult.ok => (Outcome.ret 0, { sh3 with child_pid := -127 })

/-- `int start_prog(int pipeno, int numpipes, char *progname, int argc, char *argv[],
int fd_in, int fd_out)` (lines 255-321).  `argv` holds the argument strings
(`none` is NULL). -/
def start_prog (env : Env) (sh : Shell) (pipeno numpipes : Nat) (progname : Option (List Nat))
    (argc : Int) (argv : List (Option (List Nat))) (fd_in fd_out : Int) : Outcome × Shell :=
  if argc = 0 then (Outcome.ret 1, sh)
  else
    match redirect_loop env pipeno numpipes argc argc.toNat 0 argv fd_in fd_out sh with
    | Except.error r => r
    | Except.ok (argv1, fd_in1, fd_out1, sh1) =>
      launch_prog env sh1 pipeno progname argc argv1 fd_in1 fd_out1

/-- The loop `for (i = 0; i < strlen(line); i++)` of `handle_line` (lines 119-125);
the line starts at offset 0 and `'|'` is 124.  The first argument bounds the
iterations left (the bytes from `i` on).  `none` is the `return 1` of line 124,
otherwise `nchunks`. -/
def count_chunks (mem : List Nat) : Nat → Nat → Nat → Option Nat
  | 0, _, nchunks => some nchunks
  | k + 1, i, nchunks =>
    if i < strlen mem 0 then
      if deref mem i = 124 ∧ (i ≠ 0 ∧ i ≠ strlen mem 0 - 1) then
        count_chunks mem k (i + 1) (nchunks + 1)
      else if deref mem i = 124 ∧ (i = 0 ∨ i = strlen mem 0 - 1) then none
      else count_chunks mem k (i + 1) nchunks
    else some nchunks

/-- C library `strspn(s, "|")` as a pointer: the first byte at or after `s` that is
not `'|'`.  The first argument bounds the bytes left. -/
def skip_pipes (mem : List Nat) : Nat → Nat → Nat
  | 0, s => s
  | k + 1, s => if deref mem s = 124 then skip_pipes mem k (s + 1) else s

/-- C library `strcspn(s, "|")` as a pointer: the first byte at or after `s` that is
`'|'` or the terminator.  The first argument bounds the bytes left. -/
def find_pipe (mem : List Nat) : Nat → Nat → Nat
  | 0, s => s
  | k + 1, s =>
    if deref mem s != 0 && deref mem s != 124 then find_pipe mem k (s + 1) else s

/-- C library `strtok(str, "|")` (ISO C 7.24.5.8), with its saved pointer made
explicit.  Delimiters at the start are skipped; if the string ends there the
result is NULL; otherwise the token runs up to the next delimiter, which is
overwritten with NUL.  Result: the token pointer, the memory, the saved pointer. -/
def strtok (mem : List Nat) (str : Option Nat) (save : Nat) : Option Nat × List Nat × Nat :=
  let s0 := match str with
    | some p => p
    | none => save
  let s1 := skip_pipes mem (mem.length - s0) s0
  if deref mem s1 = 0 then (none, mem, s1)
  else
    let e := find_pipe mem (mem.length - s1) s1
    if deref mem e = 0 then (some s1, mem, e)
    else (some s1, mem.set e 0, e + 1)

/-- `struct command` (run_shell.h): `argv` points into the line buffer. -/
structure Command where
  /-- The array `argv`: pointers into the line, `none` for NULL. -/
  argv : List (Option Nat)
  /-- The field `argc`. -/
  argc : Int
  deriving DecidableEq, Repr

/-- The loop `for (cur_chunk = 0; cur_chunk < nchunks; cur_chunk++)` of `handle_line`
(lines 133-159).  The first argument bounds the iterations left
(`nchunks - cur_chunk`).  `none` is undefined behaviour: `strtok` returned NULL and `*ptr` dereferences it (line
144), or a store leaves `argv`.  The array from `malloc((toks + 1) * sizeof(char *))`
is taken to hold NULLs. -/
def parse_chunks (nchunks : Nat) :
    Nat → Nat → List Nat → Nat → List Command → Option (List Nat × List Command)
  | 0, _, mem, _, commands => some (mem, commands)
  | k + 1, cur_chunk, mem, save, commands =>
    if cur_chunk < nchunks then
      let r := strtok mem (if cur_chunk = 0 then some 0 else none) save
      match r.1 with
      | none => none
      | some chunk =>
        let toks := count_toks r.2.1 chunk
        match tokenize r.2.1 chunk (List.replicate (toks + 1).toNat none) toks with
        | none => none
        | some (_, mem1, argv) =>
          parse_chunks nchunks k (cur_chunk + 1) mem1 r.2.2 (commands ++ [{ argv := argv, argc := toks }])
    else some (mem, commands)

/-- A command as `start_prog` reads it: the argument strings and `argc`. -/
structure Stage where
  /-- The strings `argv[0]`, `argv[1]`, ...; `none` for NULL. -/
  argv : List (Option (List Nat))
  /-- The field `argc`. -/
  argc : Int
  deriving DecidableEq, Repr

/-- The strings a command's pointers refer to in the line buffer. -/
def Command.strings (mem : List Nat) (c : Command) : Stage :=
  { argv := c.argv.map (fun p => p.map (cstr mem)), argc := c.argc }

/-- The result of the parsing part of `handle_line` (lines 117-159). -/
inductive Parsed where
  /-- `return 1` at line 124. -/
  | syntax_error
  /-- Undefined behaviour while the commands are built. -/
  | undefined
  /-- `nchunks` and the array `commands`. -/
  | ok (nchunks : Nat) (commands : List Stage)
  deriving DecidableEq, Repr

/-- Lines 117-159 of `handle_line`: count the chunks, then build `commands`. -/
def parse_line (line : List Nat) : Parsed :=
  match count_chunks line line.length 0 1 with
  | none => Parsed.syntax_error
  | some nchunks =>
    match parse_chunks nchunks nchunks 0 line 0 [] with
    | none => Parsed.undefined
    | some (mem, commands) => Parsed.ok nchunks (commands.map (Command.strings mem))

/-- The call `start_prog(i, nchunks, commands[i].argv[0], commands[i].argc,
commands[i].argv, fd_in, fd_out)`. -/
def start_stage (env : Env) (sh : Shell) (commands : List Stage) (i nchunks : Nat)
    (fd_in fd_out : Int) : Outcome × Shell :=
  match commands[i]? with
  | none => (Outcome.undefined, sh)
  | some c => start_prog env sh i nchunks (c.argv.headD none) c.argc c.argv fd_in fd_out

/-- `if (start_prog(...)) { free_commands(...); free(commands); return 1; }` followed
by the rest of `handle_line`. -/
def unless_fails (r : Outcome × Shell) (rest : Shell → Outcome × Shell) : Outcome × Shell :=
  match r.1 with
  | Outcome.ret v => if v ≠ 0 then (Outcome.ret 1, r.2) else rest r.2
  | o => (o, r.2)

/-- `close_pipe(fd);` followed by the rest of `handle_line`. -/
def then_close (sh : Shell) (fd : Int) (rest : Shell → Outcome × Shell) : Outcome × Shell :=
  match close_pipe sh fd with
  | none => (Outcome.hang, sh)
  | some sh1 => rest sh1

/-- Lines 213-234 of `handle_line`: the last stage, on the shell's stdout. -/
def finish_pipeline (env : Env) (commands : List Stage) (nchunks i : Nat) (p1 p2 : Int × Int)
    (sh : Shell) : Outcome × Shell :=
  if i % 2 = 1 then
    unless_fails (start_stage env sh commands i nchunks p1.1 1) fun sh1 =>
    then_close sh1 p1.1 fun sh2 => (Outcome.ret 0, sh2)
  else
    unless_fails (start_stage env sh commands i nchunks p2.1 1) fun sh1 =>
    then_close sh1 p2.1 fun sh2 => (Outcome.ret 0, sh2)

/-- The loop `for (i = 1; i < nchunks - 1; i++)` of `handle_line` (lines 187-211)
and what follows it (lines 213-234).  The first argument bounds the iterations
left. -/
def run_pipeline (env : Env) (commands : List Stage) (nchunks : Nat) :
    Nat → Nat → Int × Int → Int × Int → Shell → Outcome × Shell
  | 0, i, p1, p2, sh =>
    if i < nchunks - 1 then (Outcome.more_fuel, sh)
    else finish_pipeline env commands nchunks i p1 p2 sh
  | k + 1, i, p1, p2, sh =>
    if i < nchunks - 1 then
      if i % 2 = 1 then
        let r := sys_pipe env i p2 sh
        unless_fails (start_stage env r.2 commands i nchunks p1.1 r.1.2) fun sh1 =>
        then_close sh1 p1.1 fun sh2 =>
        then_close sh2 r.1.2 fun sh3 =>
        run_pipeline env commands nchunks k (i + 1) p1 r.1 sh3
      else
        let r := sys_pipe env i p1 sh
        unless_fails (start_stage env r.2 commands i nchunks p2.1 r.1.2) fun sh1 =>
        then_close sh1 p2.1 fun sh2 =>
        then_close sh2 r.1.2 fun sh3 =>
        run_pipeline env commands nchunks k (i + 1) r.1 p2 sh3
    else finish_pipeline env commands nchunks i p1 p2 sh

/-- Lines 165-234 of `handle_line`: run the commands, with pipes between them. -/
def run_commands (env : Env) (sh : Shell) (commands : List Stage) (nchunks : Nat) :
    Outcome × Shell :=
  if nchunks = 1 then start_stage env sh commands 0 1 0 1
  else
    let r := sys_pipe env 0 env.p1_init sh
    unless_fails (start_stage env r.2 commands 0 nchunks 0 r.1.2) fun sh1 =>
    then_close sh1 r.1.2 fun sh2 =>
    run_pipeline env commands nchunks nchunks 1 r.1 env.p2_init sh2

/-- `int handle_line(char *line)` (lines 112-235); the line is the string at
offset 0 of the memory `line`. -/
def handle_line (env : Env) (sh : Shell) (line : List Nat) : Outcome × Shell :=
  match parse_line line with
  | Parsed.syntax_error => (Outcome.ret 1, sh)
  | Parsed.undefined => (Outcome.undefined, sh)
  | Parsed.ok nchunks commands => run_commands env sh commands nchunks

/-! ## A concrete environment and shell state, for evaluating the embedding -/

/-- An environment in which every call succeeds; the child of stage `k` has pid `100 + k`. -/
def env_ok : Env :=
  { pipe_ok := fun _ => true, open_result := fun _ _ => OpenResult.ok,
    fork_result := fun k => 100 + (k : Int), wait_result := fun _ => WaitResult.ok,
    wait_sigtstp := fun _ => false, p1_init := (-1, -1), p2_init := (-1, -1) }

/-- As `env_ok`, but every `waitpid` fails with an error other than `EINTR`. -/
def env_wait_fails : Env :=
  { pipe_ok := fun _ => true, open_result := fun _ _ => OpenResult.ok,
    fork_result := fun k => 100 + (k : Int), wait_result := fun _ => WaitResult.failed,
    wait_sigtstp := fun _ => false, p1_init := (-1, -1), p2_init := (-1, -1) }

/-- As `env_ok`, but no child exits while the shell waits for it: no `waitpid`
returns. -/
def env_wait_blocks : Env :=
  { pipe_ok := fun _ => true, open_result := fun _ _ => OpenResult.ok,
    fork_result := fun k => 100 + (k : Int), wait_result := fun _ => WaitResult.blocks,
    wait_sigtstp := fun _ => false, p1_init := (-1, -1), p2_init := (-1, -1) }

/-- A shell with descriptors 0, 1 and 2 open, no child, and an empty trace. -/
def shell_start : Shell := { fds := [0, 1, 2], child_pid := -127, trace := [] }

/-! ## Reading a trace -/

/-- The stages for which `run_child` was called, in the order of the calls. -/
def launches (tr : List Event) : List Nat :=
  tr.filterMap fun e =>
    match e with
    | Event.run_child k _ _ _ _ _ _ => some k
    | _ => none

/-- What a trace entry means for the wiring of a pipeline. -/
inductive Wiring where
  /-- A pipe was created with this read end and this write end. -/
  | pipe (rd wr : Int)
  /-- `run_child` was called for this stage with these `child_stdin`, `child_stdout`. -/
  | launch (stage : Nat) (fd_in fd_out : Int)
  /-- The shell closed this descriptor. -/
  | close (fd : Int)
  deriving DecidableEq, Repr

/-- The pipe creations, launches and closes of a trace, in order. -/
def wiring (tr : List Event) : List Wiring :=
  tr.filterMap fun e =>
    match e with
    | Event.pipe rd wr => some (Wiring.pipe rd wr)
    | Event.run_child k _ _ fd_in fd_out _ _ => some (Wiring.launch k fd_in fd_out)
    | Event.close fd => some (Wiring.close fd)
    | _ => none

/-- The wiring of stages `i`, `i + 1`, ... when the read end of the pipe before
stage `i` is `prev` and the pipes still to come are `pipes`: an inner stage gets a
new pipe, reads from `prev` and writes to the new write end, after which both are
closed; the last stage reads from `prev` and writes to descriptor 1, after
which `prev` is closed. -/
def tail_wiring : Nat → Int → List (Int × Int) → List Wiring
  | i, prev, [] => [Wiring.launch i prev 1, Wiring.close prev]
  | i, prev, p :: rest =>
    [Wiring.pipe p.1 p.2, Wiring.launch i prev p.2, Wiring.close prev, Wiring.close p.2]
      ++ tail_wiring (i + 1) p.1 rest

/-- The wiring of a pipeline whose pipes are `pipes` (pipe `i` joins stage `i` to
stage `i + 1`): stage 0 reads descriptor 0 and writes to pipe 0, whose write end
is then closed; the other stages follow as in `tail_wiring`. -/
def pipeline_wiring : List (Int × Int) → List Wiring
  | [] => []
  | p :: rest =>
    [Wiring.pipe p.1 p.2, Wiring.launch 0 0 p.2, Wiring.close p.2] ++ tail_wiring 1 p.1 rest

/-- A stage that has at least one argument and in which every argument
`argv[0..argc-1]` is a string other than `">"` and `"<"`. -/
def Stage.plain (c : Stage) : Prop :=
  0 < c.argc ∧ ∀ i : Nat, (i : Int) < c.argc →
    ∃ tok, c.argv[i]? = some (some tok) ∧ tok ≠ [62] ∧ tok ≠ [60]

/-- A stage in which no argument is `">"` or `"<"`. -/
def Stage.no_redirection (c : Stage) : Prop :=
  ∀ a ∈ c.argv, a ≠ some [62] ∧ a ≠ some [60]

/-- The ways in which a call ends other than by returning 0: it returns 1, the
shell exits with `EXIT_FAILURE`, the call never returns, or its behaviour is
undefined. -/
def Outcome.failed (o : Outcome) : Prop :=
  o = Outcome.ret 1 ∨ o = Outcome.exited 1 ∨ o = Outcome.hang ∨ o = Outcome.undefined

theorem runs_nil : runs [] = [] := by decide

theorem runs_cons_space (c : Nat) (s : List Nat) (h : isspace c = true) : runs (c :: s) = runs s := by
  simp [runs, List.splitOnP_cons, h]

theorem splitOnP_token (t rest : List Nat) (ht : ∀ c ∈ t, isspace c = false) :
    List.splitOnP isspace (t ++ rest) =
      (t ++ (List.splitOnP isspace rest).headD []) :: (List.splitOnP isspace rest).tail := by
  induction t with
  | nil =>
    cases h : List.splitOnP isspace rest with
    | nil => exact absurd h (List.splitOnP_ne_nil _ _)
    | cons a l => simp [h]
  | cons c t ih =>
    have hc : isspace c = false := ht c (by simp)
    have ih1 := ih (fun d hd => ht d (by simp [hd]))
    simp only [List.cons_append, List.splitOnP_cons, hc]
    rw [ih1]
    simp [List.modifyHead]

theorem runs_token_end (t : List Nat) (ht : ∀ c ∈ t, isspace c = false) (hne : t ≠ []) :
    runs t = [t] := by
  have h := splitOnP_token t [] ht
  simp only [List.append_nil, List.splitOnP_nil] at h
  cases t with
  | nil => exact absurd rfl hne
  | cons a l => simp [runs, h]

theorem runs_token_space (t : List Nat) (w : Nat) (rest : List Nat)
    (ht : ∀ c ∈ t, isspace c = false) (hne : t ≠ []) (hw : isspace w = true) :
    runs (t ++ w :: rest) = t :: runs rest := by
  have h := splitOnP_token t (w :: rest) ht
  simp only [List.splitOnP_cons, hw, if_true, List.headD_cons, List.tail_cons,
    List.append_nil] at h
  cases t with
  | nil => exact absurd rfl hne
  | cons a l => rw [runs, h]; simp [runs]


/-! ## The tokenizer: the loops of `tokenize` over a buffer split at the pointer -/

theorem deref_append (pre x : List Nat) : deref (pre ++ x) pre.length = x.headD 0 := by
  cases x with
  | nil => simp [deref, List.getD]
  | cons a l =>
    have h : (pre ++ a :: l)[pre.length]? = some a := by
      rw [List.getElem?_append_right (Nat.le_refl _)]; simp
    simp [deref, List.getD, h]

theorem skip_space_append (s : List Nat) : ∀ (pre post : List Nat) (k : Nat),
    (∀ c ∈ s, c ≠ 0) → post.headD 0 = 0 → k = s.length + post.length →
    skip_space (pre ++ (s ++ post)) k pre.length = pre.length + (s.takeWhile isspace).length := by
  induction s with
  | nil =>
    intro pre post k _ hpost hk
    cases k with
    | zero => simp [skip_space]
    | succ k =>
      have h0 : deref (pre ++ ([] ++ post)) pre.length = 0 := by
        rw [List.nil_append, deref_append]; exact hpost
      rw [skip_space, h0]; simp
  | cons c s ih =>
    intro pre post k hs hpost hk
    subst hk
    have hc : c ≠ 0 := hs c (by simp)
    have hk' : (c :: s).length + post.length = (s.length + post.length) + 1 := by simp; omega
    rw [hk', skip_space, deref_append]
    by_cases hsp : isspace c = true
    · have := ih (pre ++ [c]) post (s.length + post.length) (fun d hd => hs d (by simp [hd])) hpost rfl
      simp only [List.length_append, List.length_singleton, List.append_assoc,
        List.singleton_append] at this
      simp [hc, hsp, this]; omega
    · simp [hc, hsp]

theorem skip_token_append (s : List Nat) : ∀ (pre post : List Nat) (k : Nat),
    (∀ c ∈ s, c ≠ 0) → post.headD 0 = 0 → k = s.length + post.length →
    skip_token (pre ++ (s ++ post)) k pre.length
      = pre.length + (s.takeWhile (fun c => !isspace c)).length := by
  induction s with
  | nil =>
    intro pre post k _ hpost hk
    cases k with
    | zero => simp [skip_token]
    | succ k =>
      have h0 : deref (pre ++ ([] ++ post)) pre.length = 0 := by
        rw [List.nil_append, deref_append]; exact hpost
      rw [skip_token, h0]; simp
  | cons c s ih =>
    intro pre post k hs hpost hk
    subst hk
    have hc : c ≠ 0 := hs c (by simp)
    have hk' : (c :: s).length + post.length = (s.length + post.length) + 1 := by simp; omega
    rw [hk', skip_token, deref_append]
    by_cases hsp : isspace c = true
    · simp [hc, hsp]
    · have := ih (pre ++ [c]) post (s.length + post.length) (fun d hd => hs d (by simp [hd])) hpost rfl
      simp only [List.length_append, List.length_singleton, List.append_assoc,
        List.singleton_append] at this
      simp [hc, hsp, this]; omega

theorem mark_end_append (s : List Nat) : ∀ (pre post : List Nat) (k : Nat),
    (∀ c ∈ s, c ≠ 0) → post.headD 0 = 0 → k = s.length + post.length →
    mark_end k (pre ++ (s ++ post)) pre.length
      = (pre ++ (List.replicate (s.takeWhile isspace).length 0 ++ (s.dropWhile isspace ++ post)),
         pre.length + (s.takeWhile isspace).length) := by
  induction s with
  | nil =>
    intro pre post k _ hpost hk
    cases k with
    | zero => simp [mark_end]
    | succ k =>
      have h0 : deref (pre ++ ([] ++ post)) pre.length = 0 := by
        rw [List.nil_append, deref_append]; exact hpost
      rw [mark_end, h0]; simp
  | cons c s ih =>
    intro pre post k hs hpost hk
    subst hk
    have hc : c ≠ 0 := hs c (by simp)
    have hk' : (c :: s).length + post.length = (s.length + post.length) + 1 := by simp; omega
    rw [hk', mark_end, deref_append]
    by_cases hsp : isspace c = true
    · have := ih (pre ++ [0]) post (s.length + post.length) (fun d hd => hs d (by simp [hd])) hpost rfl
      simp only [List.length_append, List.length_singleton, List.append_assoc,
        List.singleton_append] at this
      simp [hc, hsp, this, List.replicate_succ]; omega
    · simp [hc, hsp]


theorem runs_dropWhile_space (s : List Nat) : runs (s.dropWhile isspace) = runs s := by
  induction s with
  | nil => rfl
  | cons c s ih =>
    by_cases hc : isspace c = true
    · simp [List.dropWhile, hc, ih, runs_cons_space]
    · simp [List.dropWhile, hc]

theorem head_dropWhile_not {p : Nat → Bool} (s : List Nat) (c : Nat) (l : List Nat)
    (h : s.dropWhile p = c :: l) : p c = false := by
  induction s with
  | nil => simp at h
  | cons a s ih =>
    by_cases ha : p a = true
    · simp [List.dropWhile, ha] at h; exact ih h
    · simp [List.dropWhile, ha] at h
      rw [← h.1]; simpa using ha

theorem runs_step (s : List Nat) (hne : s ≠ []) (hhd : ∀ c, s.head? = some c → isspace c = false) :
    runs s = s.takeWhile (fun c => !isspace c)
      :: runs ((s.dropWhile (fun c => !isspace c)).dropWhile isspace) := by
  have ht : ∀ c ∈ s.takeWhile (fun c => !isspace c), isspace c = false := by
    intro c hc
    simpa using List.mem_takeWhile_imp hc
  have htne : s.takeWhile (fun c => !isspace c) ≠ [] := by
    cases s with
    | nil => exact absurd rfl hne
    | cons a l => simp [List.takeWhile, hhd a rfl]
  rw [runs_dropWhile_space]
  conv => lhs; rw [← List.takeWhile_append_dropWhile (fun c => !isspace c) s]
  cases hr : s.dropWhile (fun c => !isspace c) with
  | nil => simp [runs_token_end _ ht htne, runs_nil]
  | cons w r =>
    have hw : isspace w = true := by simpa using head_dropWhile_not s w r hr
    rw [runs_token_space _ w r ht htne hw, runs_cons_space w r hw]

theorem cstr_append (pre t x : List Nat) (ht : ∀ c ∈ t, c ≠ 0) (hx : x.headD 0 = 0) :
    cstr (pre ++ (t ++ x)) pre.length = t := by
  unfold cstr
  rw [List.drop_left]
  induction t with
  | nil =>
    cases x with
    | nil => rfl
    | cons a l => simp at hx; simp [List.takeWhile, hx]
  | cons c t ih =>
    have hc : c ≠ 0 := ht c (by simp)
    have hb : (c != 0) = true := by simpa using hc
    rw [List.cons_append, List.takeWhile_cons, hb]
    simp only [if_true]
    rw [ih (fun d hd => ht d (by simp [hd]))]


theorem runs_at_nil (o : Nat) : runs_at o [] = [] := by
  simp [runs_at, pieces_at]

theorem runs_at_cons_space (o c : Nat) (s : List Nat) (h : isspace c = true) :
    runs_at o (c :: s) = runs_at (o + 1) s := by
  simp [runs_at, List.splitOnP_cons, h, pieces_at]

theorem runs_at_token_end (o : Nat) (t : List Nat) (ht : ∀ c ∈ t, isspace c = false)
    (hne : t ≠ []) : runs_at o t = [(o, t)] := by
  have h := splitOnP_token t [] ht
  simp only [List.append_nil, List.splitOnP_nil] at h
  cases t with
  | nil => exact absurd rfl hne
  | cons a l => simp [runs_at, h, pieces_at]

theorem runs_at_token_space (o : Nat) (t : List Nat) (w : Nat) (rest : List Nat)
    (ht : ∀ c ∈ t, isspace c = false) (hne : t ≠ []) (hw : isspace w = true) :
    runs_at o (t ++ w :: rest) = (o, t) :: runs_at (o + t.length + 1) rest := by
  have h := splitOnP_token t (w :: rest) ht
  simp only [List.splitOnP_cons, hw, if_true, List.headD_cons, List.tail_cons,
    List.append_nil] at h
  cases t with
  | nil => exact absurd rfl hne
  | cons a l => rw [runs_at, h]; simp [runs_at, pieces_at]

theorem runs_at_dropWhile_space (s : List Nat) : ∀ o : Nat,
    runs_at (o + (s.takeWhile isspace).length) (s.dropWhile isspace) = runs_at o s := by
  induction s with
  | nil => intro o; rfl
  | cons c s ih =>
    intro o
    by_cases hc : isspace c = true
    · simp only [List.takeWhile_cons, List.dropWhile_cons, hc, if_true, List.length_cons]
      rw [runs_at_cons_space o c s hc, ← ih (o + 1)]
      congr 1; omega
    · simp [List.takeWhile, List.dropWhile, hc]

theorem runs_at_step (o : Nat) (s : List Nat) (hne : s ≠ [])
    (hhd : ∀ c, s.head? = some c → isspace c = false) :
    runs_at o s = (o, s.takeWhile (fun c => !isspace c))
      :: runs_at (o + (s.takeWhile (fun c => !isspace c)).length
            + ((s.dropWhile (fun c => !isspace c)).takeWhile isspace).length)
          ((s.dropWhile (fun c => !isspace c)).dropWhile isspace) := by
  have ht : ∀ c ∈ s.takeWhile (fun c => !isspace c), isspace c = false := by
    intro c hc
    simpa using List.mem_takeWhile_imp hc
  have htne : s.takeWhile (fun c => !isspace c) ≠ [] := by
    cases s with
    | nil => exact absurd rfl hne
    | cons a l => simp [List.takeWhile, hhd a rfl]
  rw [runs_at_dropWhile_space]
  conv => lhs; rw [← List.takeWhile_append_dropWhile (fun c => !isspace c) s]
  cases hr : s.dropWhile (fun c => !isspace c) with
  | nil => simp [runs_at_token_end _ _ ht htne, runs_at_nil]
  | cons w r =>
    have hw : isspace w = true := by simpa using head_dropWhile_not s w r hr
    rw [runs_at_token_space _ _ w r ht htne hw, runs_at_cons_space _ w r hw]

theorem tokenize_loop_spec (maxargs : Int) : ∀ (k : Nat) (pre s post : List Nat)
    (argv : List (Option Nat)) (n : Nat),
    (∀ c ∈ s, c ≠ 0) → post.headD 0 = 0 → (∀ c, s.head? = some c → isspace c = false) →
    maxargs = (n : Int) + (k : Int) → n + k < argv.length →
    ∃ s' argv', tokenize_loop maxargs k (pre ++ (s ++ post)) argv pre.length n
        = some (pre ++ (s' ++ post), argv', n + min k (runs s).length)
      ∧ s'.length = s.length ∧ argv'.length = argv.length
      ∧ (∀ i, i < n → argv'[i]? = argv[i]?)
      ∧ (∀ j, j < min k (runs s).length → ∃ q t, argv'[n + j]? = some (some q)
          ∧ (runs s)[j]? = some t ∧ (runs_at pre.length s)[j]? = some (q, t)
          ∧ pre.length ≤ q ∧ q + t.length ≤ pre.length + s.length
          ∧ cstr (pre ++ (s' ++ post)) q = t) := by
  intro k
  induction k with
  | zero =>
    intro pre s post argv n _ _ _ _ _
    exact ⟨s, argv, by simp [tokenize_loop], rfl, rfl, fun _ _ => rfl, by simp⟩
  | succ k ih =>
    intro pre s post argv n hs hpost hhd hmax hcap
    have hlt : decide ((n : Int) < maxargs) = true := by
      simp only [decide_eq_true_eq]; omega
    cases hsc : s with
    | nil =>
      have h0 : deref (pre ++ ([] ++ post)) pre.length = 0 := by
        rw [List.nil_append, deref_append]; exact hpost
      exact ⟨[], argv, by rw [tokenize_loop, h0]; simp [runs_nil], rfl, rfl, fun _ _ => rfl,
        by simp [runs_nil]⟩
    | cons c s0 =>
      rw [← hsc]
      have hsne : s ≠ [] := by rw [hsc]; simp
      have hc0 : c ≠ 0 := hs c (by simp [hsc])
      have hd : deref (pre ++ (s ++ post)) pre.length = c := by
        rw [deref_append, hsc]; rfl
      have hguard : (deref (pre ++ (s ++ post)) pre.length != 0
          && decide ((n : Int) < maxargs)) = true := by
        rw [hd, hlt]; simpa using hc0
      have hstore : argv_store argv n (some pre.length) = some (argv.set n (some pre.length)) := by
        unfold argv_store; rw [if_pos]; omega
      -- the token and what follows it
      have hsplit : s = s.takeWhile (fun c => !isspace c) ++ s.dropWhile (fun c => !isspace c) :=
        (List.takeWhile_append_dropWhile _ s).symm
      generalize ht : s.takeWhile (fun c => !isspace c) = t at hsplit
      generalize hr0 : s.dropWhile (fun c => !isspace c) = r0 at hsplit
      have hlen : (pre ++ (s ++ post)).length - pre.length = s.length + post.length := by
        simp
      have hskip : skip_token (pre ++ (s ++ post)) ((pre ++ (s ++ post)).length - pre.length)
          pre.length = (pre ++ t).length := by
        rw [hlen, skip_token_append s pre post _ hs hpost rfl, ht]; simp
      have hr0z : ∀ c ∈ r0, c ≠ 0 := fun d hd => hs d (by rw [hsplit]; simp [hd])
      have htz : ∀ c ∈ t, c ≠ 0 := fun d hd => hs d (by rw [hsplit]; simp [hd])
      have hmem : pre ++ (s ++ post) = (pre ++ t) ++ (r0 ++ post) := by
        rw [hsplit]; simp
      have hlen2 : (pre ++ (s ++ post)).length - (pre ++ t).length = r0.length + post.length := by
        rw [hmem]; simp; omega
      generalize hm : (r0.takeWhile isspace).length = m
      generalize hrest : r0.dropWhile isspace = rest
      have hmark : mark_end ((pre ++ (s ++ post)).length - (pre ++ t).length) (pre ++ (s ++ post))
          (pre ++ t).length
          = ((pre ++ (t ++ List.replicate m 0)) ++ (rest ++ post),
             (pre ++ (t ++ List.replicate m 0)).length) := by
        rw [hlen2, hmem, mark_end_append r0 (pre ++ t) post _ hr0z hpost rfl, hm, hrest]
        simp; omega
      have hrestz : ∀ c ∈ rest, c ≠ 0 := by
        intro d hd
        apply hr0z
        rw [← hrest] at hd
        exact (List.dropWhile_suffix _).subset hd
      have hresthd : ∀ c, rest.head? = some c → isspace c = false := by
        intro d hd
        cases hrc : rest with
        | nil => rw [hrc] at hd; simp at hd
        | cons a l =>
          rw [hrc] at hd; simp at hd; rw [← hd]
          exact head_dropWhile_not r0 a l (hrest.trans hrc)
      obtain ⟨s1, argv1, heq, hl1, hal1, hpre1, htok1⟩ :=
        ih (pre ++ (t ++ List.replicate m 0)) rest post (argv.set n (some pre.length)) (n + 1)
          hrestz hpost hresthd (by push_cast; omega) (by simp; omega)
      have hruns : runs s = t :: runs rest := by
        rw [runs_step s hsne (by rw [hsc]; intro d hd; exact hhd d (by rw [hsc]; exact hd)),
          ht, hr0, hrest]
      have hruns_at : runs_at pre.length s
          = (pre.length, t) :: runs_at (pre.length + t.length + m) rest := by
        rw [runs_at_step pre.length s hsne
          (by rw [hsc]; intro d hd; exact hhd d (by rw [hsc]; exact hd)), ht, hr0, hm, hrest]
      have hlen1 : (pre ++ (t ++ List.replicate m 0)).length = pre.length + t.length + m := by
        simp; omega
      have hr0len : r0.length = m + rest.length := by
        rw [← hm, ← hrest, ← List.length_append, List.takeWhile_append_dropWhile]
      have hslen : s.length = t.length + (m + rest.length) := by
        rw [hsplit, List.length_append, hr0len]
      have hx : (List.replicate m 0 ++ (s1 ++ post)).headD 0 = 0 := by
        cases hmz : m with
        | succ m' => simp [List.replicate_succ]
        | zero =>
          have hr0nil : r0 = [] := by
            cases hr0c : r0 with
            | nil => rfl
            | cons w l =>
              have hw : isspace w = true := by simpa using head_dropWhile_not s w l (hr0.trans hr0c)
              rw [hr0c] at hm
              simp [List.takeWhile, hw] at hm
              omega
          have : rest = [] := by rw [← hrest, hr0nil]; rfl
          have hs1 : s1 = [] := by
            apply List.eq_nil_of_length_eq_zero; rw [hl1, this]; rfl
          rw [hs1]; simpa using hpost
      refine ⟨t ++ (List.replicate m 0 ++ s1), argv1, ?_, ?_, ?_, ?_, ?_⟩
      · rw [tokenize_loop]
        simp only [hguard, hstore, if_true]
        rw [hskip, hmark]
        simp only []
        rw [heq, hruns]
        simp only [List.append_assoc, List.length_cons]
        congr 3
        omega
      · simp [hl1, hslen]
      · simp [hal1]
      · intro i hi
        rw [hpre1 i (by omega), List.getElem?_set_ne (by omega)]
      · intro j hj
        rw [hruns, List.length_cons] at hj
        cases j with
        | zero =>
          refine ⟨pre.length, t, ?_, ?_, ?_, Nat.le_refl _, ?_, ?_⟩
          · rw [Nat.add_zero, hpre1 n (by omega), List.getElem?_set_self (by omega)]
          · rw [hruns]; simp
          · rw [hruns_at]; simp
          · omega
          · have := cstr_append pre t (List.replicate m 0 ++ (s1 ++ post)) htz hx
            simpa [List.append_assoc] using this
        | succ j =>
          obtain ⟨q, t', h1, h2, h2a, h3, h4, h5⟩ := htok1 j (by omega)
          rw [hlen1] at h2a
          refine ⟨q, t', ?_, ?_, ?_, ?_, ?_, ?_⟩
          · rw [← h1]; congr 1; omega
          · rw [hruns]; simpa using h2
          · rw [hruns_at]; simpa using h2a
          · simp at h3; omega
          · simp at h3 h4; omega
          · rw [← h5]; simp [List.append_assoc]


theorem runs_mem (n : Nat) : ∀ (s : List Nat), s.length ≤ n →
    ∀ t ∈ runs s, t ≠ [] ∧ ∀ c ∈ t, isspace c = false := by
  induction n with
  | zero =>
    intro s hs t ht
    have : s = [] := List.eq_nil_of_length_eq_zero (by omega)
    rw [this, runs_nil] at ht; simp at ht
  | succ n ih =>
    intro s hs t ht
    cases hsc : s with
    | nil => rw [hsc, runs_nil] at ht; simp at ht
    | cons a l =>
      by_cases ha : isspace a = true
      · rw [hsc, runs_cons_space a l ha] at ht
        exact ih l (by rw [hsc] at hs; simp at hs; omega) t ht
      · have hstep := runs_step s (by rw [hsc]; simp)
          (by rw [hsc]; intro d hd; simp at hd; rw [← hd]; simpa using ha)
        rw [hstep] at ht
        rcases List.mem_cons.mp ht with h | h
        · subst h
          constructor
          · rw [hsc]; simp [List.takeWhile, ha]
          · intro c hc; simpa using List.mem_takeWhile_imp hc
        · refine ih _ ?_ t h
          have h1 := (List.dropWhile_suffix isspace
            (l := s.dropWhile (fun c => !isspace c))).length_le
          have h2 : (s.dropWhile (fun c => !isspace c)).length ≤ l.length := by
            rw [hsc]; simp [List.dropWhile, ha]
            exact (List.dropWhile_suffix _).length_le
          rw [hsc] at hs; simp at hs; omega

/-- Splitting memory at a pointer: bytes before it, the C string at it, the rest. -/
theorem mem_split (mem : List Nat) (p : Nat) (hp : p ≤ mem.length) :
    ∃ pre post, mem = pre ++ (cstr mem p ++ post) ∧ pre.length = p ∧
      (∀ c ∈ cstr mem p, c ≠ 0) ∧ post.headD 0 = 0 := by
  refine ⟨mem.take p, (mem.drop p).dropWhile (fun c => c != 0), ?_, ?_, ?_, ?_⟩
  · unfold cstr
    rw [List.takeWhile_append_dropWhile, List.take_append_drop]
  · simp [hp]
  · intro c hc
    simpa using List.mem_takeWhile_imp hc
  · cases h : (mem.drop p).dropWhile (fun c => c != 0) with
    | nil => rfl
    | cons a l =>
      have := head_dropWhile_not (p := fun c => c != 0) (mem.drop p) a l h
      simpa using this


theorem tokenize_append (pre s post : List Nat) (argv : List (Option Nat)) (maxargs : Int)
    (hs : ∀ c ∈ s, c ≠ 0) (hpost : post.headD 0 = 0) (hmax : 0 ≤ maxargs)
    (hcap : maxargs < argv.length) :
    ∃ mem' argv', tokenize (pre ++ (s ++ post)) pre.length argv maxargs
        = some (min (runs s).length maxargs.toNat, mem', argv')
      ∧ mem'.length = (pre ++ (s ++ post)).length ∧ argv'.length = argv.length
      ∧ argv'[min (runs s).length maxargs.toNat]? = some none
      ∧ ∀ i, i < min (runs s).length maxargs.toNat → ∃ q t, argv'[i]? = some (some q)
          ∧ (runs s)[i]? = some t ∧ (runs_at pre.length s)[i]? = some (q, t)
          ∧ pre.length ≤ q ∧ q + t.length ≤ pre.length + s.length
          ∧ cstr mem' q = t := by
  generalize hws : s.takeWhile isspace = ws
  generalize hs0 : s.dropWhile isspace = s0
  have hsplit : s = ws ++ s0 := by rw [← hws, ← hs0, List.takeWhile_append_dropWhile]
  have hskip : skip_space (pre ++ (s ++ post)) ((pre ++ (s ++ post)).length - pre.length)
      pre.length = (pre ++ ws).length := by
    have : (pre ++ (s ++ post)).length - pre.length = s.length + post.length := by simp
    rw [this, skip_space_append s pre post _ hs hpost rfl, hws]; simp
  have hmem : pre ++ (s ++ post) = (pre ++ ws) ++ (s0 ++ post) := by rw [hsplit]; simp
  have hs0z : ∀ c ∈ s0, c ≠ 0 := fun d hd => hs d (by rw [hsplit]; simp [hd])
  have hs0hd : ∀ c, s0.head? = some c → isspace c = false := by
    intro d hd
    cases hc : s0 with
    | nil => rw [hc] at hd; simp at hd
    | cons a l =>
      rw [hc] at hd; simp at hd; rw [← hd]
      exact head_dropWhile_not s a l (hs0.trans hc)
  have hruns : runs s0 = runs s := by rw [← hs0, runs_dropWhile_space]
  have hruns_at : runs_at (pre ++ ws).length s0 = runs_at pre.length s := by
    rw [List.length_append, ← hws, ← hs0]
    exact runs_at_dropWhile_space s pre.length
  have hk : (maxargs.toNat : Int) = maxargs := Int.toNat_of_nonneg hmax
  obtain ⟨s', argv1, heq, hl, hal, _, htok⟩ :=
    tokenize_loop_spec maxargs maxargs.toNat (pre ++ ws) s0 post argv 0 hs0z hpost hs0hd
      (by omega) (by omega)
  rw [hruns] at heq htok
  rw [hruns_at] at htok
  simp only [Nat.zero_add] at heq htok
  have hmin : min maxargs.toNat (runs s).length = min (runs s).length maxargs.toNat :=
    Nat.min_comm _ _
  rw [hmin] at heq htok
  generalize hn : min (runs s).length maxargs.toNat = n at heq htok
  have hnlt : n < argv1.length := by rw [hal]; omega
  refine ⟨(pre ++ ws) ++ (s' ++ post), argv1.set n none, ?_, ?_, ?_, ?_, ?_⟩
  · unfold tokenize
    simp only []
    rw [hskip, hmem, heq]
    simp only [argv_store, hnlt, if_true]
  · rw [hmem]; simp [hl]
  · simp [hal]
  · rw [List.getElem?_set_self hnlt]
  · intro i hi
    obtain ⟨q, t, h1, h2, h2a, h3, h4, h5⟩ := htok i hi
    refine ⟨q, t, ?_, h2, h2a, ?_, ?_, h5⟩
    · rw [List.getElem?_set_ne (by omega), h1]
    · simp at h3; omega
    · have : s.length = ws.length + s0.length := by rw [hsplit]; simp
      simp at h3 h4; omega


/-! ## The token pre-count of `handle_line` -/

/-- C1. For a buffer pointer into the stored bytes and `0 ≤ maxargs` (with the
`maxargs + 1` slots of `argv` that the final `argv[n]=NULL` needs), `tokenize`
returns `n = min(k, maxargs)` where `k` is the number of maximal runs of
non-whitespace characters of the string at `buffer`; for `i < n`, `argv[i]` is a
pointer to the first character of the `i`-th run, where after the call the
NUL-terminated string is exactly that run (non-empty, free of whitespace, ending
inside the buffer); and `argv[n]` is `NULL`. -/
theorem tokenize_first_runs (mem : List Nat) (buffer : Nat) (argv : List (Option Nat))
    (maxargs : Int) (hbuf : buffer ≤ mem.length) (hmax : 0 ≤ maxargs)
    (hcap : maxargs < argv.length) :
    ∃ mem' argv',
      tokenize mem buffer argv maxargs
        = some (min (runs (cstr mem buffer)).length maxargs.toNat, mem', argv')
      ∧ argv'[min (runs (cstr mem buffer)).length maxargs.toNat]? = some none
      ∧ ∀ i, i < min (runs (cstr mem buffer)).length maxargs.toNat →
          ∃ q t, argv'[i]? = some (some q) ∧ (runs (cstr mem buffer))[i]? = some t
            ∧ (runs_at buffer (cstr mem buffer))[i]? = some (q, t)
            ∧ cstr mem' q = t ∧ t ≠ [] ∧ (∀ c ∈ t, isspace c = false)
            ∧ buffer ≤ q ∧ q + t.length ≤ buffer + strlen mem buffer := by
  obtain ⟨pre, post, hmem, hlen, hz, hpost⟩ := mem_split mem buffer hbuf
  unfold strlen
  generalize cstr mem buffer = s at hmem hz
  subst hmem
  subst hlen
  obtain ⟨mem', argv', h1, _, _, h4, h5⟩ := tokenize_append pre s post argv maxargs hz hpost hmax hcap
  refine ⟨mem', argv', h1, h4, ?_⟩
  intro i hi
  obtain ⟨q, t, g1, g2, g2a, g3, g4, g5⟩ := h5 i hi
  have hmemt : t ∈ runs s := List.getElem?_mem g2
  have := runs_mem s.length s (Nat.le_refl _) t hmemt
  exact ⟨q, t, g1, g2, g2a, g5, this.1, this.2, g3, g4⟩

theorem tokenize_first_runs_witness :
    ∃ mem' argv',
      tokenize [32, 97, 98, 32, 32, 99, 0, 7] 0 [none, none, none, none] 3
        = some (min (runs (cstr [32, 97, 98, 32, 32, 99, 0, 7] 0)).length (3 : Int).toNat,
            mem', argv')
      ∧ argv'[min (runs (cstr [32, 97, 98, 32, 32, 99, 0, 7] 0)).length (3 : Int).toNat]?
          = some none
      ∧ ∀ i, i < min (runs (cstr [32, 97, 98, 32, 32, 99, 0, 7] 0)).length (3 : Int).toNat →
          ∃ q t, argv'[i]? = some (some q)
            ∧ (runs (cstr [32, 97, 98, 32, 32, 99, 0, 7] 0))[i]? = some t
            ∧ (runs_at 0 (cstr [32, 97, 98, 32, 32, 99, 0, 7] 0))[i]? = some (q, t)
            ∧ cstr mem' q = t ∧ t ≠ [] ∧ (∀ c ∈ t, isspace c = false)
            ∧ 0 ≤ q ∧ q + t.length ≤ 0 + strlen [32, 97, 98, 32, 32, 99, 0, 7] 0 :=
  tokenize_first_runs [32, 97, 98, 32, 32, 99, 0, 7] 0 [none, none, none, none] 3
    (by decide) (by decide) (by decide)

theorem fd_file_install (tbl : List (Option Nat)) : ∀ (k f j : Nat),
    fd_file (fd_install tbl k f) j = if j = k then some f else fd_file tbl j := by
  induction tbl with
  | nil =>
    intro k
    induction k with
    | zero =>
      intro f j
      cases j <;> simp [fd_install, fd_file]
    | succ k ih =>
      intro f j
      cases j with
      | zero => simp [fd_install, fd_file]
      | succ j =>
        have := ih f j
        simp only [fd_file, fd_install, List.getD_cons_succ] at this ⊢
        rw [this]; simp
  | cons x rest ih =>
    intro k f j
    cases k with
    | zero => cases j <;> simp [fd_install, fd_file]
    | succ k =>
      cases j with
      | zero => simp [fd_install, fd_file]
      | succ j =>
        have := ih k f j
        simp only [fd_file, fd_install, List.getD_cons_succ] at this ⊢
        rw [this]; simp

theorem fd_file_lowest_free (tbl : List (Option Nat)) : fd_file tbl (lowest_free tbl) = none := by
  induction tbl with
  | nil => rfl
  | cons x rest ih =>
    cases x with
    | none => rfl
    | some f => simpa [lowest_free, fd_file] using ih


theorem dup_spec (tbl : List (Option Nat)) (old f : Nat) (h : fd_file tbl old = some f) :
    ∃ tbl' d, dup tbl old = some (tbl', d) ∧ fd_file tbl d = none ∧ fd_file tbl' d = some f ∧
      ∀ j x, fd_file tbl j = some x → fd_file tbl' j = some x := by
  refine ⟨fd_install tbl (lowest_free tbl) f, lowest_free tbl, ?_, fd_file_lowest_free tbl, ?_, ?_⟩
  · simp [dup, h]
  · simp [fd_file_install]
  · intro j x hj
    rw [fd_file_install]
    have : j ≠ lowest_free tbl := by
      intro e; rw [e, fd_file_lowest_free] at hj; cases hj
    simp [this, hj]

theorem dup2_spec (tbl : List (Option Nat)) (old new f : Nat) (h : fd_file tbl old = some f) :
    dup2 tbl old new = some (fd_install tbl new f, new) := by
  simp [dup2, h]

theorem move_stderr_done (fuel : Nat) (tbl : List (Option Nat)) (e : Nat) (h0 : e ≠ 0)
    (h1 : e ≠ 1) : move_stderr fuel tbl e = Setup.done (tbl, e) := by
  cases fuel <;> simp [move_stderr, h0, h1]

theorem move_stderr_spec (fuel : Nat) (tbl : List (Option Nat)) (e fe : Nat) (hfuel : 2 ≤ fuel)
    (he : fd_file tbl e = some fe) :
    ∃ tbl' e', move_stderr fuel tbl e = Setup.done (tbl', e') ∧ e' ≠ 0 ∧ e' ≠ 1 ∧
      fd_file tbl' e' = some fe ∧ ∀ j x, fd_file tbl j = some x → fd_file tbl' j = some x := by
  obtain ⟨f, rfl⟩ : ∃ f, fuel = f + 2 := ⟨fuel - 2, by omega⟩
  by_cases hg : e = 0 ∨ e = 1
  · obtain ⟨tbl1, d1, hd1, hfree1, hnew1, hkeep1⟩ := dup_spec tbl e fe he
    have hne : d1 ≠ e := by intro h; rw [h, he] at hfree1; cases hfree1
    by_cases hg1 : d1 = 0 ∨ d1 = 1
    · obtain ⟨tbl2, d2, hd2, hfree2, hnew2, hkeep2⟩ := dup_spec tbl1 d1 fe hnew1
      have he1 : fd_file tbl1 e = some fe := hkeep1 e fe he
      have h20 : d2 ≠ 0 := by
        intro h; rw [h] at hfree2
        rcases hg with h | h <;> rcases hg1 with h' | h' <;> simp_all
      have h21 : d2 ≠ 1 := by
        intro h; rw [h] at hfree2
        rcases hg with h | h <;> rcases hg1 with h' | h' <;> simp_all
      refine ⟨tbl2, d2, ?_, h20, h21, hnew2, fun j x hj => hkeep2 j x (hkeep1 j x hj)⟩
      rw [move_stderr, if_pos hg, hd1]
      simp only []
      rw [move_stderr, if_pos hg1, hd2]
      simp only []
      exact move_stderr_done f tbl2 d2 h20 h21
    · have h10 : d1 ≠ 0 := fun h => hg1 (Or.inl h)
      have h11 : d1 ≠ 1 := fun h => hg1 (Or.inr h)
      refine ⟨tbl1, d1, ?_, h10, h11, hnew1, hkeep1⟩
      rw [move_stderr, if_pos hg, hd1]
      simp only []
      exact move_stderr_done (f + 1) tbl1 d1 h10 h11
  · have h0 : e ≠ 0 := fun h => hg (Or.inl h)
    have h1 : e ≠ 1 := fun h => hg (Or.inr h)
    exact ⟨tbl, e, move_stderr_done _ tbl e h0 h1, h0, h1, he, fun _ _ h => h⟩

/-- C9. In the child branch of `run_child` (lines 87-104), with the descriptor
table a map from numbers to open files, `dup` returning the lowest free number
and two or more iterations allowed to the `child_stderr` loop: for every triple
of open descriptors (whether or not some coincide or are 0, 1 or 2) the set-up
completes, and afterwards descriptor 0 refers to the file `child_stdin` referred
to at entry, descriptor 1 to that of `child_stdout`, descriptor 2 to that of
`child_stderr`. -/
theorem run_child_setup_remaps (fuel : Nat) (tbl : List (Option Nat))
    (child_stdin child_stdout child_stderr f_in f_out f_err : Nat) (hfuel : 2 ≤ fuel)
    (hin : fd_file tbl child_stdin = some f_in) (hout : fd_file tbl child_stdout = some f_out)
    (herr : fd_file tbl child_stderr = some f_err) :
    ∃ tbl', run_child_setup fuel tbl child_stdin child_stdout child_stderr = Setup.done tbl'
      ∧ fd_file tbl' 0 = some f_in ∧ fd_file tbl' 1 = some f_out
      ∧ fd_file tbl' 2 = some f_err := by
  -- move child_stdout off descriptor 0
  have hmoved : ∃ tbl1 o1,
      (if child_stdout = 0 then
        match dup tbl child_stdout with
        | none => Setup.child_error
        | some r => Setup.done r
       else Setup.done (tbl, child_stdout)) = Setup.done (tbl1, o1)
      ∧ o1 ≠ 0 ∧ fd_file tbl1 o1 = some f_out
      ∧ ∀ j x, fd_file tbl j = some x → fd_file tbl1 j = some x := by
    by_cases ho : child_stdout = 0
    · obtain ⟨tbl1, d1, hd1, hfree1, hnew1, hkeep1⟩ := dup_spec tbl child_stdout f_out hout
      refine ⟨tbl1, d1, ?_, ?_, hnew1, hkeep1⟩
      · rw [if_pos ho, hd1]
      · intro h; rw [h, ← ho, hout] at hfree1; cases hfree1
    · exact ⟨tbl, child_stdout, by rw [if_neg ho], ho, hout, fun _ _ h => h⟩
  obtain ⟨tbl1, o1, hm, ho1, hfo1, hkeep1⟩ := hmoved
  obtain ⟨tbl2, e1, hmv, he0, he1, hfe2, hkeep2⟩ :=
    move_stderr_spec fuel tbl1 child_stderr f_err hfuel (hkeep1 _ _ herr)
  have hin2 : fd_file tbl2 child_stdin = some f_in := hkeep2 _ _ (hkeep1 _ _ hin)
  have hout2 : fd_file tbl2 o1 = some f_out := hkeep2 _ _ hfo1
  have hout3 : fd_file (fd_install tbl2 0 f_in) o1 = some f_out := by
    rw [fd_file_install, if_neg ho1, hout2]
  have herr4 : fd_file (fd_install (fd_install tbl2 0 f_in) 1 f_out) e1 = some f_err := by
    rw [fd_file_install, if_neg he1, fd_file_install, if_neg he0, hfe2]
  refine ⟨fd_install (fd_install (fd_install tbl2 0 f_in) 1 f_out) 2 f_err, ?_, ?_, ?_, ?_⟩
  · unfold run_child_setup
    simp only []
    rw [hm]
    simp only []
    rw [hmv]
    simp only []
    rw [dup2_spec tbl2 child_stdin 0 f_in hin2]
    simp only [ne_eq, not_true_eq_false, if_false]
    rw [dup2_spec _ o1 1 f_out hout3]
    simp only [ne_eq, not_true_eq_false, if_false]
    rw [dup2_spec _ e1 2 f_err herr4]
    simp only [ne_eq, not_true_eq_false, if_false]
  · simp [fd_file_install]
  · simp [fd_file_install]
  · simp [fd_file_install]

theorem run_child_setup_remaps_witness :
    ∃ tbl', run_child_setup 2 [some 10, some 11, some 12] 2 0 1 = Setup.done tbl'
      ∧ fd_file tbl' 0 = some 12 ∧ fd_file tbl' 1 = some 10 ∧ fd_file tbl' 2 = some 11 :=
  run_child_setup_remaps 2 [some 10, some 11, some 12] 2 0 1 12 10 11 (by decide) (by decide)
    (by decide) (by decide)

/-! ## The scan for `'|'` at the edges of the line (C2), adjacent pipes (C3) -/

theorem deref_eq_cstr (mem : List Nat) (i : Nat) (h : i < strlen mem 0) :
    (cstr mem 0)[i]? = some (deref mem i) := by
  unfold strlen at h
  have hsplit : mem = cstr mem 0 ++ mem.dropWhile (fun c => c != 0) := by
    unfold cstr; simp [List.takeWhile_append_dropWhile]
  have : mem[i]? = (cstr mem 0)[i]? := by
    conv => lhs; rw [hsplit]
    exact List.getElem?_append_left h
  rw [← this]
  have hi : i < mem.length := by
    have : (cstr mem 0).length ≤ mem.length := by
      conv => rhs; rw [hsplit]
      simp
    omega
  simp [deref, List.getD, List.getElem?_eq_getElem hi]

theorem strlen_le_length (mem : List Nat) : strlen mem 0 ≤ mem.length := by
  unfold strlen cstr
  simpa using (List.takeWhile_prefix (fun c => c != 0) (l := mem)).length_le

theorem count_chunks_first (mem : List Nat) (k n : Nat) (hL : 1 ≤ strlen mem 0)
    (h : deref mem 0 = 124) : count_chunks mem (k + 1) 0 n = none := by
  have h0 : 0 < strlen mem 0 := hL
  simp [count_chunks, h0, h]

theorem count_chunks_last (mem : List Nat) (hL : 1 ≤ strlen mem 0)
    (h : deref mem (strlen mem 0 - 1) = 124) : ∀ (k i n : Nat), i ≤ strlen mem 0 - 1 →
    strlen mem 0 - i ≤ k → count_chunks mem k i n = none := by
  intro k
  induction k with
  | zero => intro i n hi hk; omega
  | succ k ih =>
    intro i n hi hk
    have hlt : i < strlen mem 0 := by omega
    rw [count_chunks, if_pos hlt]
    by_cases hc : deref mem i = 124
    · by_cases hmid : i ≠ 0 ∧ i ≠ strlen mem 0 - 1
      · rw [if_pos ⟨hc, hmid⟩]
        exact ih (i + 1) (n + 1) (by omega) (by omega)
      · rw [if_neg (fun hh => hmid hh.2), if_pos]
        refine ⟨hc, ?_⟩
        by_cases h0 : i = 0
        · exact Or.inl h0
        · right
          by_contra h1
          exact hmid ⟨h0, h1⟩
    · have hne : i ≠ strlen mem 0 - 1 := by
        intro e; rw [e] at hc; exact hc h
      rw [if_neg (fun hh => hc hh.1), if_neg (fun hh => hc hh.1)]
      exact ih (i + 1) n (by omega) (by omega)

/-- C2. For every line whose first character or whose last character is `'|'`,
the parsing part of `handle_line` ends in the `return 1` of line 124, so no
command list is built, and `handle_line` returns 1 with the shell state
unchanged: the trace has no new entry, so no `pipe`, `open` or `run_child` call
was made. -/
theorem handle_line_pipe_at_edge (env : Env) (sh : Shell) (line : List Nat)
    (h : (cstr line 0).head? = some 124 ∨ (cstr line 0).getLast? = some 124) :
    parse_line line = Parsed.syntax_error ∧ handle_line env sh line = (Outcome.ret 1, sh) := by
  have hne : cstr line 0 ≠ [] := by
    rcases h with h | h <;> (intro e; rw [e] at h; simp at h)
  have hL : 1 ≤ strlen line 0 := by
    unfold strlen
    exact Nat.succ_le_of_lt (List.length_pos.mpr hne)
  have hlen := strlen_le_length line
  have hscan : count_chunks line line.length 0 1 = none := by
    rcases h with h | h
    · obtain ⟨k, hk⟩ : ∃ k, line.length = k + 1 := ⟨line.length - 1, by omega⟩
      rw [hk]
      apply count_chunks_first line k 1 hL
      have := deref_eq_cstr line 0 (by omega)
      rw [List.head?_eq_getElem?] at h
      rw [h] at this
      exact (Option.some.inj this).symm
    · apply count_chunks_last line hL _ line.length 0 1 (by omega) (by omega)
      have := deref_eq_cstr line (strlen line 0 - 1) (by omega)
      rw [List.getLast?_eq_getElem?] at h
      unfold strlen at this
      rw [h] at this
      exact (Option.some.inj this).symm
  have hp : parse_line line = Parsed.syntax_error := by
    unfold parse_line; rw [hscan]
  exact ⟨hp, by unfold handle_line; rw [hp]⟩

theorem handle_line_pipe_at_edge_witness :
    parse_line [97, 32, 124, 0] = Parsed.syntax_error
      ∧ handle_line env_ok shell_start [97, 32, 124, 0] = (Outcome.ret 1, shell_start) :=
  handle_line_pipe_at_edge env_ok shell_start [97, 32, 124, 0] (by decide)

/-- C3 (the code at the failing input). On the line `a||b` the scan counts three
chunks, but `strtok` skips the empty chunk between the two `'|'`: its third call
returns NULL and line 144 dereferences it. -/
theorem parse_line_adjacent_pipes : parse_line [97, 124, 124, 98, 0] = Parsed.undefined := by
  decide

/-! ## The missing-filename check of `start_prog` (C7) -/

/-- C7 (the code at the failing input). For the single command `cat <` the test
`i >= argc` of line 275 is false (`i` is 1, `argc` is 2), `open` is called on
`argv[2]`, which is NULL, and fails with an `errno` other than `ENOENT`:
`start_prog` calls `exit(EXIT_FAILURE)` instead of returning 1. -/
theorem start_prog_missing_filename (env : Env) (sh : Shell) :
    start_prog env sh 0 1 (some [99, 97, 116]) 2 [some [99, 97, 116], some [60], none] 0 1
      = (Outcome.exited 1, sh) := by
  simp [start_prog, redirect_loop]

/-! ## The redirection loop and the launch in `start_prog` -/

theorem redirect_loop_error_ne (env : Env) (pipeno numpipes : Nat) (argc : Int) :
    ∀ (k i : Nat) (argv : List (Option (List Nat))) (fd_in fd_out : Int) (sh : Shell)
      (r : Outcome × Shell),
    redirect_loop env pipeno numpipes argc k i argv fd_in fd_out sh = Except.error r →
    r.1 ≠ Outcome.ret 0 := by
  intro k
  induction k with
  | zero => intro i argv fd_in fd_out sh r h; simp [redirect_loop] at h
  | succ k ih =>
    intro i argv fd_in fd_out sh r h
    rw [redirect_loop] at h
    repeat' split at h
    all_goals first
      | (cases h; simp)
      | exact ih _ _ _ _ _ _ h
      | simp at h


theorem launches_append (a b : List Event) : launches (a ++ b) = launches a ++ launches b := by
  simp [launches, List.filterMap_append]

theorem wiring_append (a b : List Event) : wiring (a ++ b) = wiring a ++ wiring b := by
  simp [wiring, List.filterMap_append]

theorem redirect_loop_keeps (env : Env) (pipeno numpipes : Nat) (argc : Int) :
    ∀ (k i : Nat) (argv : List (Option (List Nat))) (fd_in fd_out : Int) (sh : Shell)
      (r : List (Option (List Nat)) × Int × Int × Shell),
    redirect_loop env pipeno numpipes argc k i argv fd_in fd_out sh = Except.ok r →
    ∀ (j : Nat) (tok : List Nat), argv[j]? = some (some tok) → tok ≠ [62] → tok ≠ [60] →
      r.1[j]? = some (some tok) := by
  intro k
  induction k with
  | zero =>
    intro i argv fd_in fd_out sh r h j tok hj _ _
    simp [redirect_loop] at h; rw [← h]; exact hj
  | succ k ih =>
    intro i argv fd_in fd_out sh r h j tok hj h1 h2
    have key : ∀ (fi fo : Int) (sh1 : Shell) (t : List Nat), argv[i]? = some (some t) →
        (t = [62] ∨ t = [60]) →
        redirect_loop env pipeno numpipes argc k (i + 1) (argv.set i none) fi fo sh1 = Except.ok r →
        r.1[j]? = some (some tok) := by
      intro fi fo sh1 t hi hop hr
      refine ih _ _ _ _ _ _ hr j tok ?_ h1 h2
      have hij : i ≠ j := by
        intro e; subst e
        rw [hi] at hj
        cases hj
        rcases hop with e | e
        · exact h1 e
        · exact h2 e
      rw [List.getElem?_set_ne hij]; exact hj
    rw [redirect_loop] at h
    repeat' split at h
    all_goals first
      | (cases h; exact hj)
      | exact ih _ _ _ _ _ _ h j tok hj h1 h2
      | cases h
      | exact key _ _ _ _ (by assumption) (by assumption) h


theorem redirect_loop_no_ops (env : Env) (pipeno numpipes : Nat) (argc : Int)
    (argv : List (Option (List Nat)))
    (hno : ∀ (i : Nat) (tok : List Nat), (i : Int) < argc → argv[i]? = some (some tok) →
      tok ≠ [62] ∧ tok ≠ [60]) :
    ∀ (k i : Nat) (fd_in fd_out : Int) (sh : Shell),
    redirect_loop env pipeno numpipes argc k i argv fd_in fd_out sh
        = Except.ok (argv, fd_in, fd_out, sh)
      ∨ redirect_loop env pipeno numpipes argc k i argv fd_in fd_out sh
        = Except.error (Outcome.undefined, sh) := by
  intro k
  induction k with
  | zero => intro i fd_in fd_out sh; left; rfl
  | succ k ih =>
    intro i fd_in fd_out sh
    rw [redirect_loop]
    by_cases hi : (i : Int) < argc
    · rw [if_pos hi]
      cases hai : argv[i]? with
      | none => right; rfl
      | some a =>
        cases a with
        | none => right; rfl
        | some tok =>
          have := hno i tok hi hai
          simp only []
          rw [if_neg (by intro h; rcases h with h | h; exact this.1 h; exact this.2 h)]
          exact ih _ _ _ _
    · rw [if_neg hi]; left; rfl

theorem redirect_loop_plain (env : Env) (pipeno numpipes : Nat) (argc : Int)
    (argv : List (Option (List Nat)))
    (hpl : ∀ i : Nat, (i : Int) < argc →
      ∃ tok, argv[i]? = some (some tok) ∧ tok ≠ [62] ∧ tok ≠ [60]) :
    ∀ (k i : Nat) (fd_in fd_out : Int) (sh : Shell),
    redirect_loop env pipeno numpipes argc k i argv fd_in fd_out sh
        = Except.ok (argv, fd_in, fd_out, sh) := by
  intro k
  induction k with
  | zero => intro i fd_in fd_out sh; rfl
  | succ k ih =>
    intro i fd_in fd_out sh
    rw [redirect_loop]
    by_cases hi : (i : Int) < argc
    · rw [if_pos hi]
      obtain ⟨tok, hai, h1, h2⟩ := hpl i hi
      rw [hai]
      simp only []
      rw [if_neg (by intro h; rcases h with h | h; exact h1 h; exact h2 h)]
      exact ih _ _ _ _
    · rw [if_neg hi]

theorem sigtstp_during_wait (b : Bool) (sh : Shell) :
    (if b then sigtstp_handler sh 20 else sh).fds = sh.fds
    ∧ ∃ new, (if b then sigtstp_handler sh 20 else sh).trace = sh.trace ++ new
      ∧ launches new = [] ∧ wiring new = [] := by
  cases b with
  | false => exact ⟨rfl, [], (List.append_nil _).symm, rfl, rfl⟩
  | true =>
    simp only [if_true]
    unfold sigtstp_handler
    by_cases h : sh.child_pid > 0
    · rw [if_pos h]; exact ⟨rfl, [Event.kill sh.child_pid 20], rfl, rfl, rfl⟩
    · rw [if_neg h]; exact ⟨rfl, [], (List.append_nil _).symm, rfl, rfl⟩

theorem launch_prog_spec (env : Env) (sh : Shell) (pipeno : Nat) (progname : Option (List Nat))
    (argc : Int) (argv : List (Option (List Nat))) (fd_in fd_out : Int) :
    (launch_prog env sh pipeno progname argc argv fd_in fd_out).2.fds = sh.fds
    ∧ ∃ new, (launch_prog env sh pipeno progname argc argv fd_in fd_out).2.trace = sh.trace ++ new
      ∧ (∀ k ∈ launches new, k = pipeno)
      ∧ ((launch_prog env sh pipeno progname argc argv fd_in fd_out).1 = Outcome.ret 0 →
          wiring new = [Wiring.launch pipeno fd_in fd_out]) := by
  unfold launch_prog
  by_cases h1 : argc < 1
  · rw [if_pos h1]; exact ⟨rfl, [], by simp, by simp [launches], by simp⟩
  · rw [if_neg h1]
    cases hl : argv[(argc - 1).toNat]? with
    | none => exact ⟨rfl, [], by simp, by simp [launches], by simp⟩
    | some a =>
      cases a with
      | none => exact ⟨rfl, [], by simp, by simp [launches], by simp⟩
      | some last =>
        simp only []
        by_cases hbg : last = [38]
        · rw [if_pos hbg]
          by_cases hpid : env.fork_result pipeno < 0
          · rw [if_pos hpid]
            exact ⟨rfl, [_], rfl, by simp [launches], by simp [wiring]⟩
          · rw [if_neg hpid]
            exact ⟨rfl, [_], rfl, by simp [launches], by simp [wiring]⟩
        · rw [if_neg hbg]
          by_cases hpid : env.fork_result pipeno < 0
          · rw [if_pos hpid]
            exact ⟨rfl, [_], rfl, by simp [launches], by simp [wiring]⟩
          · rw [if_neg hpid]
            obtain ⟨hf, new, htr, hl, hw⟩ := sigtstp_during_wait (env.wait_sigtstp pipeno)
              { sh with
                child_pid := env.fork_result pipeno
                trace := sh.trace ++ [Event.run_child pipeno progname argv fd_in fd_out 2
                  (env.fork_result pipeno)] ++ [Event.waitpid (env.fork_result pipeno)] }
            have hres : ∃ new1, (if env.wait_sigtstp pipeno then
                  sigtstp_handler { sh with
                    child_pid := env.fork_result pipeno
                    trace := sh.trace ++ [Event.run_child pipeno progname argv fd_in fd_out 2
                      (env.fork_result pipeno)] ++ [Event.waitpid (env.fork_result pipeno)] } 20
                else { sh with
                    child_pid := env.fork_result pipeno
                    trace := sh.trace ++ [Event.run_child pipeno progname argv fd_in fd_out 2
                      (env.fork_result pipeno)] ++ [Event.waitpid (env.fork_result pipeno)] }).trace
                  = sh.trace ++ new1 ∧ (∀ k ∈ launches new1, k = pipeno)
                ∧ wiring new1 = [Wiring.launch pipeno fd_in fd_out] := by
              refine ⟨[Event.run_child pipeno progname argv fd_in fd_out 2
                (env.fork_result pipeno), Event.waitpid (env.fork_result pipeno)] ++ new, ?_, ?_, ?_⟩
              · rw [htr]; simp
              · rw [launches_append, hl]; simp [launches]
              · rw [wiring_append, hw]; simp [wiring]
            obtain ⟨new1, htr1, hl1, hw1⟩ := hres
            cases env.wait_result pipeno with
            | blocks => exact ⟨hf, new1, htr1, hl1, fun _ => hw1⟩
            | failed => exact ⟨hf, new1, htr1, hl1, fun _ => hw1⟩
            | eintr => exact ⟨hf, new1, htr1, hl1, fun _ => hw1⟩
            | ok => exact ⟨hf, new1, htr1, hl1, fun _ => hw1⟩


theorem start_prog_no_ops (env : Env) (sh : Shell) (pipeno numpipes : Nat)
    (progname : Option (List Nat)) (argc : Int) (argv : List (Option (List Nat)))
    (fd_in fd_out : Int)
    (hno : ∀ (i : Nat) (tok : List Nat), (i : Int) < argc → argv[i]? = some (some tok) →
      tok ≠ [62] ∧ tok ≠ [60]) :
    (start_prog env sh pipeno numpipes progname argc argv fd_in fd_out).2.fds = sh.fds
    ∧ ((start_prog env sh pipeno numpipes progname argc argv fd_in fd_out).1 = Outcome.ret 0 →
        ∃ new, (start_prog env sh pipeno numpipes progname argc argv fd_in fd_out).2.trace
          = sh.trace ++ new ∧ wiring new = [Wiring.launch pipeno fd_in fd_out]) := by
  unfold start_prog
  by_cases h0 : argc = 0
  · rw [if_pos h0]; exact ⟨rfl, by simp⟩
  · rw [if_neg h0]
    rcases redirect_loop_no_ops env pipeno numpipes argc argv hno argc.toNat 0 fd_in fd_out sh
      with h | h
    · rw [h]
      simp only []
      obtain ⟨hf, new1, hn1, _, hw1⟩ :=
        launch_prog_spec env sh pipeno progname argc argv fd_in fd_out
      exact ⟨hf, fun hz => ⟨new1, hn1, hw1 hz⟩⟩
    · rw [h]; exact ⟨rfl, by simp⟩

theorem start_prog_plain (env : Env) (sh : Shell) (pipeno numpipes : Nat)
    (progname : Option (List Nat)) (c : Stage) (fd_in fd_out : Int) (hpl : c.plain)
    (hw : env.wait_result pipeno = WaitResult.ok ∨ env.wait_result pipeno = WaitResult.eintr) :
    (start_prog env sh pipeno numpipes progname c.argc c.argv fd_in fd_out).1 = Outcome.ret 0 := by
  obtain ⟨hpos, hall⟩ := hpl
  unfold start_prog
  rw [if_neg (by omega), redirect_loop_plain env pipeno numpipes c.argc c.argv hall]
  simp only []
  unfold launch_prog
  rw [if_neg (by omega)]
  obtain ⟨last, hl, _, _⟩ := hall (c.argc - 1).toNat (by omega)
  rw [hl]
  simp only []
  by_cases hbg : last = [38]
  · rw [if_pos hbg]
    by_cases hpid : env.fork_result pipeno < 0
    · rw [if_pos hpid]
    · rw [if_neg hpid]
  · rw [if_neg hbg]
    by_cases hpid : env.fork_result pipeno < 0
    · rw [if_pos hpid]
    · rw [if_neg hpid]
      rcases hw with hw | hw
      · rw [hw]
      · rw [hw]

/-! ## Background children and `sigtstp_handler` (C8) -/

/-- C8 (as amended). For every stage whose last argument is `"&"`, whose launch
succeeds (`fork` returns a pid greater than 0) and for which `start_prog` returns
0: when `start_prog` returns, `child_pid` holds the pid of the background child,
not -127; a later `sigtstp_handler` sends the signal to that child with `kill`,
and only then sets `child_pid` to -127. -/
theorem background_child_stays_tracked (env : Env) (sh : Shell) (pipeno numpipes : Nat)
    (progname : Option (List Nat)) (argc : Int) (argv : List (Option (List Nat)))
    (fd_in fd_out signo : Int) (hargc : 0 < argc)
    (hlast : argv[(argc - 1).toNat]? = some (some [38]))
    (hfork : 0 < env.fork_result pipeno)
    (hret : (start_prog env sh pipeno numpipes progname argc argv fd_in fd_out).1
      = Outcome.ret 0) :
    (start_prog env sh pipeno numpipes progname argc argv fd_in fd_out).2.child_pid
      = env.fork_result pipeno
    ∧ (start_prog env sh pipeno numpipes progname argc argv fd_in fd_out).2.child_pid ≠ -127
    ∧ (sigtstp_handler
        (start_prog env sh pipeno numpipes progname argc argv fd_in fd_out).2 signo).trace
      = (start_prog env sh pipeno numpipes progname argc argv fd_in fd_out).2.trace
          ++ [Event.kill (env.fork_result pipeno) signo]
    ∧ (sigtstp_handler
        (start_prog env sh pipeno numpipes progname argc argv fd_in fd_out).2 signo).child_pid
      = -127 := by
  have hpid : (start_prog env sh pipeno numpipes progname argc argv fd_in fd_out).2.child_pid
      = env.fork_result pipeno := by
    unfold start_prog at hret ⊢
    rw [if_neg (by omega)] at hret ⊢
    cases hr : redirect_loop env pipeno numpipes argc argc.toNat 0 argv fd_in fd_out sh with
    | error r =>
      rw [hr] at hret
      exact absurd hret (redirect_loop_error_ne env pipeno numpipes argc _ _ _ _ _ _ _ hr)
    | ok r =>
      obtain ⟨argv1, fd_in1, fd_out1, sh1⟩ := r
      have hkeep := redirect_loop_keeps env pipeno numpipes argc _ _ _ _ _ _ _ hr
        (argc - 1).toNat [38] hlast (by decide) (by decide)
      simp only [] at hkeep ⊢
      unfold launch_prog
      rw [if_neg (by omega), hkeep]
      simp only [if_true]
      rw [if_neg (by omega)]
  refine ⟨hpid, by rw [hpid]; omega, ?_, ?_⟩
  · unfold sigtstp_handler
    rw [if_pos (by rw [hpid]; exact hfork), hpid]
  · unfold sigtstp_handler
    rw [if_pos (by rw [hpid]; exact hfork)]

theorem background_child_stays_tracked_witness :
    (start_prog env_ok shell_start 0 1 (some [115]) 2 [some [115], some [38], none] 0 1).2.child_pid
      = env_ok.fork_result 0
    ∧ (start_prog env_ok shell_start 0 1 (some [115]) 2 [some [115], some [38], none] 0
        1).2.child_pid ≠ -127
    ∧ (sigtstp_handler
        (start_prog env_ok shell_start 0 1 (some [115]) 2 [some [115], some [38], none] 0 1).2
          20).trace
      = (start_prog env_ok shell_start 0 1 (some [115]) 2 [some [115], some [38], none] 0
          1).2.trace ++ [Event.kill (env_ok.fork_result 0) 20]
    ∧ (sigtstp_handler
        (start_prog env_ok shell_start 0 1 (some [115]) 2 [some [115], some [38], none] 0 1).2
          20).child_pid = -127 :=
  background_child_stays_tracked env_ok shell_start 0 1 (some [115]) 2
    [some [115], some [38], none] 0 1 20 (by decide) (by decide) (by decide) (by decide)

/-- C8 (counterexample). After the background command `s &` has been launched
with pid 100, `child_pid` is 100, not -127, and a call of `sigtstp_handler` sends
signal 20 to process 100. -/
theorem background_child_tracked_counterexample :
    (start_prog env_ok shell_start 0 1 (some [115]) 2 [some [115], some [38], none] 0 1).1
      = Outcome.ret 0
    ∧ (start_prog env_ok shell_start 0 1 (some [115]) 2 [some [115], some [38], none] 0
        1).2.child_pid ≠ -127
    ∧ Event.kill 100 20 ∈ (sigtstp_handler
        (start_prog env_ok shell_start 0 1 (some [115]) 2 [some [115], some [38], none] 0 1).2
          20).trace := by
  decide

/-! ## A misplaced redirection in a pipeline -/

theorem failed_ne_zero (o : Outcome) (h : o.failed) : o ≠ Outcome.ret 0 := by
  rcases h with h | h | h | h <;> (rw [h]; decide)

theorem redirect_loop_error_failed (env : Env) (pipeno numpipes : Nat) (argc : Int) :
    ∀ (k i : Nat) (argv : List (Option (List Nat))) (fd_in fd_out : Int) (sh : Shell)
      (r : Outcome × Shell),
    redirect_loop env pipeno numpipes argc k i argv fd_in fd_out sh = Except.error r →
    r.1.failed := by
  intro k
  induction k with
  | zero => intro i argv fd_in fd_out sh r h; simp [redirect_loop] at h
  | succ k ih =>
    intro i argv fd_in fd_out sh r h
    rw [redirect_loop] at h
    repeat' split at h
    all_goals first
      | (cases h; simp [Outcome.failed])
      | exact ih _ _ _ _ _ _ h
      | simp at h

theorem launch_prog_outcome (env : Env) (sh : Shell) (pipeno : Nat)
    (progname : Option (List Nat)) (argc : Int) (argv : List (Option (List Nat)))
    (fd_in fd_out : Int) :
    (launch_prog env sh pipeno progname argc argv fd_in fd_out).1 = Outcome.ret 0
    ∨ (launch_prog env sh pipeno progname argc argv fd_in fd_out).1.failed := by
  unfold launch_prog
  by_cases h1 : argc < 1
  · rw [if_pos h1]; right; simp [Outcome.failed]
  · rw [if_neg h1]
    cases hl : argv[(argc - 1).toNat]? with
    | none => right; simp [Outcome.failed]
    | some a =>
      cases a with
      | none => right; simp [Outcome.failed]
      | some last =>
        simp only []
        by_cases hbg : last = [38]
        · rw [if_pos hbg]
          by_cases hpid : env.fork_result pipeno < 0
          · rw [if_pos hpid]; left; rfl
          · rw [if_neg hpid]; left; rfl
        · rw [if_neg hbg]
          by_cases hpid : env.fork_result pipeno < 0
          · rw [if_pos hpid]; left; rfl
          · rw [if_neg hpid]
            cases hw : env.wait_result pipeno with
            | blocks => right; simp [Outcome.failed]
            | failed => right; simp [Outcome.failed]
            | ok => left; rfl
            | eintr => left; rfl

theorem start_prog_outcome (env : Env) (sh : Shell) (pipeno numpipes : Nat)
    (progname : Option (List Nat)) (argc : Int) (argv : List (Option (List Nat)))
    (fd_in fd_out : Int) :
    (start_prog env sh pipeno numpipes progname argc argv fd_in fd_out).1 = Outcome.ret 0
    ∨ (start_prog env sh pipeno numpipes progname argc argv fd_in fd_out).1.failed := by
  unfold start_prog
  by_cases h0 : argc = 0
  · rw [if_pos h0]; right; simp [Outcome.failed]
  · rw [if_neg h0]
    cases hr : redirect_loop env pipeno numpipes argc argc.toNat 0 argv fd_in fd_out sh with
    | error r => right; exact redirect_loop_error_failed env pipeno numpipes argc _ _ _ _ _ _ _ hr
    | ok r => exact launch_prog_outcome env _ pipeno progname argc _ _ _

theorem start_stage_outcome (env : Env) (sh : Shell) (commands : List Stage) (i nchunks : Nat)
    (fd_in fd_out : Int) :
    (start_stage env sh commands i nchunks fd_in fd_out).1 = Outcome.ret 0
    ∨ (start_stage env sh commands i nchunks fd_in fd_out).1.failed := by
  unfold start_stage
  cases commands[i]? with
  | none => right; simp [Outcome.failed]
  | some c => exact start_prog_outcome env sh i nchunks _ _ _ _ _

theorem unless_fails_failed (r : Outcome × Shell) (rest : Shell → Outcome × Shell)
    (h : r.1.failed) :
    (unless_fails r rest).1.failed ∧ (unless_fails r rest).2 = r.2 := by
  unfold unless_fails
  rcases h with h | h | h | h <;> rw [h] <;> simp [Outcome.failed]

theorem unless_fails_zero (r : Outcome × Shell) (rest : Shell → Outcome × Shell)
    (h : r.1 = Outcome.ret 0) : unless_fails r rest = rest r.2 := by
  unfold unless_fails
  rw [h]; simp

theorem fd_bound_spec (fds : List Int) : ∀ d ∈ fds, d < (fd_bound fds : Int) := by
  induction fds with
  | nil => intro d hd; simp at hd
  | cons a l ih =>
    intro d hd
    simp only [fd_bound]
    rcases List.mem_cons.mp hd with h | h
    · subst h
      have : d ≤ (d.toNat : Int) := Int.self_le_toNat d
      omega
    · have := ih d h
      omega

theorem lowest_unused_spec (fds : List Int) : ∀ (k c : Nat),
    (∀ d ∈ fds, d < (c : Int) + (k : Int)) → ((lowest_unused fds k c : Nat) : Int) ∉ fds := by
  intro k
  induction k with
  | zero =>
    intro c h hmem
    have := h _ hmem
    simp [lowest_unused] at this
  | succ k ih =>
    intro c h
    rw [lowest_unused]
    split
    · exact ih (c + 1) (fun d hd => by have := h d hd; push_cast at this ⊢; omega)
    · assumption

theorem lowest_free_fd_spec (fds : List Int) : lowest_free_fd fds ∉ fds := by
  unfold lowest_free_fd
  exact lowest_unused_spec fds (fd_bound fds) 0
    (fun d hd => by have := fd_bound_spec fds d hd; push_cast; omega)

theorem sys_pipe_ok (env : Env) (k : Nat) (p : Int × Int) (sh : Shell)
    (h : env.pipe_ok k = true) :
    ∃ rd wr shp, sys_pipe env k p sh = ((rd, wr), shp)
      ∧ shp.fds = wr :: rd :: sh.fds ∧ shp.trace = sh.trace ++ [Event.pipe rd wr]
      ∧ rd ∉ sh.fds ∧ wr ∉ sh.fds ∧ wr ≠ rd := by
  refine ⟨lowest_free_fd sh.fds, lowest_free_fd (lowest_free_fd sh.fds :: sh.fds),
    (sys_pipe env k p sh).2, ?_, ?_, ?_, lowest_free_fd_spec sh.fds, ?_, ?_⟩
  · unfold sys_pipe; rw [if_pos h]
  · unfold sys_pipe; rw [if_pos h]
  · unfold sys_pipe; rw [if_pos h]
  · intro hm
    exact lowest_free_fd_spec (lowest_free_fd sh.fds :: sh.fds) (List.mem_cons_of_mem _ hm)
  · intro he
    apply lowest_free_fd_spec (lowest_free_fd sh.fds :: sh.fds)
    rw [he]; exact List.mem_cons_self _ _

theorem close_pipe_open (sh : Shell) (fd : Int) (h : fd ∈ sh.fds) :
    close_pipe sh fd = some { sh with fds := sh.fds.filter (fun d => d ≠ fd),
                                      trace := sh.trace ++ [Event.close fd] } := by
  unfold close_pipe; rw [if_pos h]

theorem start_stage_no_ops (env : Env) (sh : Shell) (commands : List Stage) (i nchunks : Nat)
    (fd_in fd_out : Int)
    (hno : ∀ (c : Stage), commands[i]? = some c → ∀ (idx : Nat) (tok : List Nat),
      (idx : Int) < c.argc → c.argv[idx]? = some (some tok) → tok ≠ [62] ∧ tok ≠ [60]) :
    (start_stage env sh commands i nchunks fd_in fd_out).2.fds = sh.fds
    ∧ ((start_stage env sh commands i nchunks fd_in fd_out).1 = Outcome.ret 0 →
        ∃ new, (start_stage env sh commands i nchunks fd_in fd_out).2.trace = sh.trace ++ new
          ∧ wiring new = [Wiring.launch i fd_in fd_out]) := by
  unfold start_stage
  cases hc : commands[i]? with
  | none => exact ⟨rfl, by simp⟩
  | some c => exact start_prog_no_ops env sh i nchunks _ _ _ _ _ (hno c hc)

theorem inner_step (env : Env) (commands : List Stage) (nchunks i : Nat)
    (hno : ∀ (c : Stage), commands[i]? = some c → ∀ (idx : Nat) (tok : List Nat),
      (idx : Int) < c.argc → c.argv[idx]? = some (some tok) → tok ≠ [62] ∧ tok ≠ [60])
    (sh shp : Shell) (prev rd wr : Int) (rest : Shell → Outcome × Shell) (hprev : prev ∈ sh.fds)
    (hrd : rd ∉ sh.fds) (hwr : wr ∉ sh.fds) (hne : wr ≠ rd)
    (hshp_fds : shp.fds = wr :: rd :: sh.fds)
    (hshp_tr : shp.trace = sh.trace ++ [Event.pipe rd wr]) :
    ((start_stage env shp commands i nchunks prev wr).1 = Outcome.ret 0 →
      ∃ sh3 new,
        (unless_fails (start_stage env shp commands i nchunks prev wr) fun sh1 =>
          then_close sh1 prev fun sh2 => then_close sh2 wr rest) = rest sh3
        ∧ sh3.trace = sh.trace ++ new
        ∧ wiring new = [Wiring.pipe rd wr, Wiring.launch i prev wr, Wiring.close prev,
            Wiring.close wr]
        ∧ ∀ d, d ∈ sh3.fds ↔ (d = rd ∨ (d ∈ sh.fds ∧ d ≠ prev)))
    ∧ ((start_stage env shp commands i nchunks prev wr).1 ≠ Outcome.ret 0 →
      (unless_fails (start_stage env shp commands i nchunks prev wr) fun sh1 =>
          then_close sh1 prev fun sh2 => then_close sh2 wr rest).1 ≠ Outcome.ret 0) := by
  obtain ⟨hfds, htr⟩ := start_stage_no_ops env shp commands i nchunks prev wr hno
  have hout := start_stage_outcome env shp commands i nchunks prev wr
  generalize start_stage env shp commands i nchunks prev wr = ss at hfds htr hout
  constructor
  · intro hz
    obtain ⟨new, hnew, hwir⟩ := htr hz
    have hpne : prev ≠ wr := by intro e; rw [e] at hprev; exact hwr hprev
    have hpne2 : prev ≠ rd := by intro e; rw [e] at hprev; exact hrd hprev
    have h1 : prev ∈ ss.2.fds := by rw [hfds, hshp_fds]; simp [hprev]
    have hc1 := close_pipe_open ss.2 prev h1
    have h2 : wr ∈ (ss.2.fds.filter (fun d => d ≠ prev)) := by
      rw [hfds, hshp_fds]; simp [Ne.symm hpne]
    refine ⟨{ fds := (ss.2.fds.filter (fun d => d ≠ prev)).filter (fun d => d ≠ wr),
              child_pid := ss.2.child_pid,
              trace := (ss.2.trace ++ [Event.close prev]) ++ [Event.close wr] },
      [Event.pipe rd wr] ++ new ++ [Event.close prev, Event.close wr], ?_, ?_, ?_, ?_⟩
    · rw [unless_fails_zero _ _ hz]
      unfold then_close
      rw [hc1]
      simp only []
      rw [close_pipe_open _ wr h2]
    · simp [hnew, hshp_tr]
    · rw [wiring_append, wiring_append, hwir]; simp [wiring]
    · intro d
      simp only [hfds, hshp_fds, List.mem_filter, List.mem_cons, decide_eq_true_eq]
      constructor
      · rintro ⟨⟨h | h | h, hp⟩, hw⟩
        · exact absurd h hw
        · exact Or.inl h
        · exact Or.inr ⟨h, hp⟩
      · rintro (h | ⟨h, hp⟩)
        · subst h
          exact ⟨⟨Or.inr (Or.inl rfl), Ne.symm hpne2⟩, Ne.symm hne⟩
        · refine ⟨⟨Or.inr (Or.inr h), hp⟩, ?_⟩
          intro e; rw [e] at h; exact hwr h
  · intro hnz
    rcases hout with h | h
    · exact absurd h hnz
    · exact failed_ne_zero _ (unless_fails_failed ss _ h).1


theorem last_step (env : Env) (commands : List Stage) (nchunks i : Nat)
    (hno : ∀ (c : Stage), commands[i]? = some c → ∀ (idx : Nat) (tok : List Nat),
      (idx : Int) < c.argc → c.argv[idx]? = some (some tok) → tok ≠ [62] ∧ tok ≠ [60])
    (sh : Shell) (prev : Int) (hprev : prev ∈ sh.fds) :
    ((start_stage env sh commands i nchunks prev 1).1 = Outcome.ret 0 →
      (unless_fails (start_stage env sh commands i nchunks prev 1) fun sh1 =>
          then_close sh1 prev fun sh2 => (Outcome.ret 0, sh2)).1 = Outcome.ret 0
      ∧ ∃ new,
        (unless_fails (start_stage env sh commands i nchunks prev 1) fun sh1 =>
          then_close sh1 prev fun sh2 => (Outcome.ret 0, sh2)).2.trace = sh.trace ++ new
        ∧ wiring new = [Wiring.launch i prev 1, Wiring.close prev]
        ∧ ∀ d, d ∈ (unless_fails (start_stage env sh commands i nchunks prev 1) fun sh1 =>
            then_close sh1 prev fun sh2 => (Outcome.ret 0, sh2)).2.fds ↔ (d ∈ sh.fds ∧ d ≠ prev))
    ∧ ((start_stage env sh commands i nchunks prev 1).1 ≠ Outcome.ret 0 →
      (unless_fails (start_stage env sh commands i nchunks prev 1) fun sh1 =>
          then_close sh1 prev fun sh2 => (Outcome.ret 0, sh2)).1 ≠ Outcome.ret 0) := by
  obtain ⟨hfds, htr⟩ := start_stage_no_ops env sh commands i nchunks prev 1 hno
  have hout := start_stage_outcome env sh commands i nchunks prev 1
  generalize start_stage env sh commands i nchunks prev 1 = ss at hfds htr hout
  constructor
  · intro hz
    obtain ⟨new, hnew, hwir⟩ := htr hz
    have h1 : prev ∈ ss.2.fds := by rw [hfds]; exact hprev
    have hX : (unless_fails ss fun sh1 => then_close sh1 prev fun sh2 => (Outcome.ret 0, sh2))
        = (Outcome.ret 0, { fds := ss.2.fds.filter (fun d => d ≠ prev),
                            child_pid := ss.2.child_pid,
                            trace := ss.2.trace ++ [Event.close prev] }) := by
      rw [unless_fails_zero _ _ hz]
      unfold then_close
      rw [close_pipe_open ss.2 prev h1]
    rw [hX]
    refine ⟨rfl, new ++ [Event.close prev], ?_, ?_, ?_⟩
    · simp [hnew]
    · rw [wiring_append, hwir]; simp [wiring]
    · intro d
      simp [hfds]
  · intro hnz
    rcases hout with h | h
    · exact absurd h hnz
    · exact failed_ne_zero _ (unless_fails_failed ss _ h).1

theorem finish_pipeline_wired (env : Env) (commands : List Stage) (nchunks i : Nat)
    (hno : ∀ (k : Nat) (c : Stage), commands[k]? = some c → ∀ (i : Nat) (tok : List Nat),
      (i : Int) < c.argc → c.argv[i]? = some (some tok) → tok ≠ [62] ∧ tok ≠ [60])
    (p1 p2 : Int × Int) (sh : Shell)
    (hprev : (if i % 2 = 1 then p1.1 else p2.1) ∈ sh.fds) :
    ((finish_pipeline env commands nchunks i p1 p2 sh).1 = Outcome.ret 0 →
      ∃ new, (finish_pipeline env commands nchunks i p1 p2 sh).2.trace = sh.trace ++ new
        ∧ wiring new = tail_wiring i (if i % 2 = 1 then p1.1 else p2.1) []
        ∧ ∀ d, d ∈ (finish_pipeline env commands nchunks i p1 p2 sh).2.fds
            ↔ (d ∈ sh.fds ∧ d ≠ (if i % 2 = 1 then p1.1 else p2.1)))
    ∧ ((∀ (sh1 : Shell) (fd_in fd_out : Int),
          (start_stage env sh1 commands i nchunks fd_in fd_out).1 = Outcome.ret 0) →
        (finish_pipeline env commands nchunks i p1 p2 sh).1 = Outcome.ret 0) := by
  unfold finish_pipeline
  by_cases hodd : i % 2 = 1
  · rw [if_pos hodd] at hprev ⊢
    simp only [if_pos hodd]
    obtain ⟨ha, hb⟩ := last_step env commands nchunks i (hno i) sh p1.1 hprev
    constructor
    · intro hz
      by_cases hs : (start_stage env sh commands i nchunks p1.1 1).1 = Outcome.ret 0
      · exact (ha hs).2
      · exact absurd hz (hb hs)
    · intro hall
      exact (ha (hall _ _ _)).1
  · rw [if_neg hodd] at hprev ⊢
    simp only [if_neg hodd]
    obtain ⟨ha, hb⟩ := last_step env commands nchunks i (hno i) sh p2.1 hprev
    constructor
    · intro hz
      by_cases hs : (start_stage env sh commands i nchunks p2.1 1).1 = Outcome.ret 0
      · exact (ha hs).2
      · exact absurd hz (hb hs)
    · intro hall
      exact (ha (hall _ _ _)).1


theorem run_pipeline_wired (env : Env) (commands : List Stage) (nchunks : Nat)
    (hno : ∀ (k : Nat) (c : Stage), commands[k]? = some c → ∀ (i : Nat) (tok : List Nat),
      (i : Int) < c.argc → c.argv[i]? = some (some tok) → tok ≠ [62] ∧ tok ≠ [60])
    (hpipe : ∀ k, env.pipe_ok k = true) :
    ∀ (k i : Nat) (p1 p2 : Int × Int) (sh : Shell), i < nchunks → nchunks - 1 - i ≤ k →
    (if i % 2 = 1 then p1.1 else p2.1) ∈ sh.fds →
    ((run_pipeline env commands nchunks k i p1 p2 sh).1 = Outcome.ret 0 →
      ∃ ends new, ends.length = nchunks - 1 - i
        ∧ (run_pipeline env commands nchunks k i p1 p2 sh).2.trace = sh.trace ++ new
        ∧ wiring new = tail_wiring i (if i % 2 = 1 then p1.1 else p2.1) ends
        ∧ ∀ d, d ∈ (run_pipeline env commands nchunks k i p1 p2 sh).2.fds
            ↔ (d ∈ sh.fds ∧ d ≠ (if i % 2 = 1 then p1.1 else p2.1)))
    ∧ ((∀ j, i ≤ j → j < nchunks → ∀ (sh1 : Shell) (fd_in fd_out : Int),
          (start_stage env sh1 commands j nchunks fd_in fd_out).1 = Outcome.ret 0) →
        (run_pipeline env commands nchunks k i p1 p2 sh).1 = Outcome.ret 0) := by
  intro k
  induction k with
  | zero =>
    intro i p1 p2 sh hi hk hprev
    rw [run_pipeline, if_neg (by omega)]
    obtain ⟨ha, hb⟩ := finish_pipeline_wired env commands nchunks i hno p1 p2 sh hprev
    refine ⟨fun hz => ?_, fun hall => hb (hall i (Nat.le_refl _) hi)⟩
    obtain ⟨new, h1, h2, h3⟩ := ha hz
    exact ⟨[], new, by simp; omega, h1, h2, h3⟩
  | succ k ih =>
    intro i p1 p2 sh hi hk hprev
    rw [run_pipeline]
    by_cases hlt : i < nchunks - 1
    · rw [if_pos hlt]
      by_cases hodd : i % 2 = 1
      · rw [if_pos hodd] at hprev ⊢
        simp only [if_pos hodd]
        obtain ⟨rd, wr, shp, hsys, hpf, hpt, hrd, hwr, hne⟩ := sys_pipe_ok env i p2 sh (hpipe i)
        rw [hsys]
        simp only []
        obtain ⟨hstep, hfail⟩ := inner_step env commands nchunks i (hno i) sh shp p1.1 rd wr
          (fun sh3 => run_pipeline env commands nchunks k (i + 1) p1 (rd, wr) sh3)
          hprev hrd hwr hne hpf hpt
        have hnext : (i + 1) % 2 ≠ 1 := by omega
        constructor
        · intro hz
          by_cases hs : (start_stage env shp commands i nchunks p1.1 wr).1 = Outcome.ret 0
          · obtain ⟨sh3, new, hX, htr, hw, hf⟩ := hstep hs
            rw [hX] at hz ⊢
            have hp3 : (if (i + 1) % 2 = 1 then p1.1 else (rd, wr).1) ∈ sh3.fds := by
              rw [if_neg hnext]; exact (hf rd).mpr (Or.inl rfl)
            obtain ⟨ends, new', he, htr', hw', hf'⟩ :=
              (ih (i + 1) p1 (rd, wr) sh3 (by omega) (by omega) hp3).1 hz
            rw [if_neg hnext] at hw' hf'
            refine ⟨(rd, wr) :: ends, new ++ new', by simp [he]; omega, ?_, ?_, ?_⟩
            · rw [htr', htr, List.append_assoc]
            · rw [wiring_append, hw, hw']; rfl
            · intro d
              rw [hf' d, hf d]
              constructor
              · rintro ⟨h | h, hd⟩
                · exact absurd h hd
                · exact h
              · intro h
                refine ⟨Or.inr h, ?_⟩
                intro e; rw [e] at h; exact hrd h.1
          · exact absurd hz (hfail hs)
        · intro hall
          obtain ⟨sh3, new, hX, htr, hw, hf⟩ := hstep (hall i (Nat.le_refl _) hi _ _ _)
          rw [hX]
          have hp3 : (if (i + 1) % 2 = 1 then p1.1 else (rd, wr).1) ∈ sh3.fds := by
            rw [if_neg hnext]; exact (hf rd).mpr (Or.inl rfl)
          exact (ih (i + 1) p1 (rd, wr) sh3 (by omega) (by omega) hp3).2
            (fun j hj hjn => hall j (by omega) hjn)
      · rw [if_neg hodd] at hprev ⊢
        simp only [if_neg hodd]
        obtain ⟨rd, wr, shp, hsys, hpf, hpt, hrd, hwr, hne⟩ := sys_pipe_ok env i p1 sh (hpipe i)
        rw [hsys]
        simp only []
        obtain ⟨hstep, hfail⟩ := inner_step env commands nchunks i (hno i) sh shp p2.1 rd wr
          (fun sh3 => run_pipeline env commands nchunks k (i + 1) (rd, wr) p2 sh3)
          hprev hrd hwr hne hpf hpt
        have hnext : (i + 1) % 2 = 1 := by omega
        constructor
        · intro hz
          by_cases hs : (start_stage env shp commands i nchunks p2.1 wr).1 = Outcome.ret 0
          · obtain ⟨sh3, new, hX, htr, hw, hf⟩ := hstep hs
            rw [hX] at hz ⊢
            have hp3 : (if (i + 1) % 2 = 1 then (rd, wr).1 else p2.1) ∈ sh3.fds := by
              rw [if_pos hnext]; exact (hf rd).mpr (Or.inl rfl)
            obtain ⟨ends, new', he, htr', hw', hf'⟩ :=
              (ih (i + 1) (rd, wr) p2 sh3 (by omega) (by omega) hp3).1 hz
            rw [if_pos hnext] at hw' hf'
            refine ⟨(rd, wr) :: ends, new ++ new', by simp [he]; omega, ?_, ?_, ?_⟩
            · rw [htr', htr, List.append_assoc]
            · rw [wiring_append, hw, hw']; rfl
            · intro d
              rw [hf' d, hf d]
              constructor
              · rintro ⟨h | h, hd⟩
                · exact absurd h hd
                · exact h
              · intro h
                refine ⟨Or.inr h, ?_⟩
                intro e; rw [e] at h; exact hrd h.1
          · exact absurd hz (hfail hs)
        · intro hall
          obtain ⟨sh3, new, hX, htr, hw, hf⟩ := hstep (hall i (Nat.le_refl _) hi _ _ _)
          rw [hX]
          have hp3 : (if (i + 1) % 2 = 1 then (rd, wr).1 else p2.1) ∈ sh3.fds := by
            rw [if_pos hnext]; exact (hf rd).mpr (Or.inl rfl)
          exact (ih (i + 1) (rd, wr) p2 sh3 (by omega) (by omega) hp3).2
            (fun j hj hjn => hall j (by omega) hjn)
    · rw [if_neg hlt]
      obtain ⟨ha, hb⟩ := finish_pipeline_wired env commands nchunks i hno p1 p2 sh hprev
      refine ⟨fun hz => ?_, fun hall => hb (hall i (Nat.le_refl _) hi)⟩
      obtain ⟨new, h1, h2, h3⟩ := ha hz
      exact ⟨[], new, by simp; omega, h1, h2, h3⟩


theorem count_chunks_ge (mem : List Nat) : ∀ (k i n m : Nat),
    count_chunks mem k i n = some m → n ≤ m := by
  intro k
  induction k with
  | zero => intro i n m h; simp [count_chunks] at h; omega
  | succ k ih =>
    intro i n m h
    rw [count_chunks] at h
    repeat' split at h
    all_goals first
      | (have hle := ih _ _ _ h; omega)
      | (cases h; exact Nat.le_refl _)
      | cases h

theorem parse_chunks_length (nchunks : Nat) : ∀ (k cur : Nat) (mem : List Nat) (save : Nat)
    (commands : List Command) (r : List Nat × List Command),
    parse_chunks nchunks k cur mem save commands = some r → nchunks ≤ cur + k →
    r.2.length = commands.length + (nchunks - cur) := by
  intro k
  induction k with
  | zero =>
    intro cur mem save commands r h hk
    simp [parse_chunks] at h
    rw [← h]; simp; omega
  | succ k ih =>
    intro cur mem save commands r h hk
    rw [parse_chunks] at h
    by_cases hc : cur < nchunks
    · rw [if_pos hc] at h
      simp only [] at h
      repeat' split at h
      all_goals first
        | cases h
        | (have hlen := ih _ _ _ _ _ h (by omega)
           rw [hlen]; simp; omega)
    · rw [if_neg hc] at h
      cases h
      simp; omega

theorem parse_line_ok (line : List Nat) (n : Nat) (commands : List Stage)
    (h : parse_line line = Parsed.ok n commands) : 1 ≤ n ∧ commands.length = n := by
  unfold parse_line at h
  cases hc : count_chunks line line.length 0 1 with
  | none => rw [hc] at h; cases h
  | some m =>
    rw [hc] at h
    simp only [] at h
    cases hp : parse_chunks m m 0 line 0 [] with
    | none => rw [hp] at h; cases h
    | some r =>
      rw [hp] at h
      simp only [] at h
      cases h
      have h1 := count_chunks_ge line _ _ _ _ hc
      have h2 := parse_chunks_length n n 0 line 0 [] r hp (by omega)
      exact ⟨h1, by simpa using h2⟩

theorem run_commands_wired (env : Env) (commands : List Stage) (nchunks : Nat) (sh : Shell)
    (hno : ∀ (k : Nat) (c : Stage), commands[k]? = some c → ∀ (i : Nat) (tok : List Nat),
      (i : Int) < c.argc → c.argv[i]? = some (some tok) → tok ≠ [62] ∧ tok ≠ [60])
    (hpipe : ∀ k, env.pipe_ok k = true) (hn : 2 ≤ nchunks) :
    ((run_commands env sh commands nchunks).1 = Outcome.ret 0 →
      ∃ ends new, ends.length = nchunks - 1
        ∧ (run_commands env sh commands nchunks).2.trace = sh.trace ++ new
        ∧ wiring new = pipeline_wiring ends
        ∧ ∀ d, d ∈ (run_commands env sh commands nchunks).2.fds ↔ d ∈ sh.fds)
    ∧ ((∀ j, j < nchunks → ∀ (sh1 : Shell) (fd_in fd_out : Int),
          (start_stage env sh1 commands j nchunks fd_in fd_out).1 = Outcome.ret 0) →
        (run_commands env sh commands nchunks).1 = Outcome.ret 0) := by
  unfold run_commands
  rw [if_neg (by omega)]
  simp only []
  obtain ⟨rd, wr, shp, hsys, hpf, hpt, hrd, hwr, hne⟩ :=
    sys_pipe_ok env 0 env.p1_init sh (hpipe 0)
  rw [hsys]
  simp only []
  obtain ⟨hfds, htr⟩ := start_stage_no_ops env shp commands 0 nchunks 0 wr (hno 0)
  have hout := start_stage_outcome env shp commands 0 nchunks 0 wr
  have hs0 : (∀ j, j < nchunks → ∀ (sh1 : Shell) (fd_in fd_out : Int),
      (start_stage env sh1 commands j nchunks fd_in fd_out).1 = Outcome.ret 0) →
      (start_stage env shp commands 0 nchunks 0 wr).1 = Outcome.ret 0 :=
    fun hall => hall 0 (by omega) _ _ _
  generalize start_stage env shp commands 0 nchunks 0 wr = ss at hfds htr hout hs0
  -- the state after stage 0 has been launched and the write end closed
  have hstep : ss.1 = Outcome.ret 0 → ∃ sh2 new,
      (unless_fails ss fun sh1 => then_close sh1 wr fun sh2 =>
        run_pipeline env commands nchunks nchunks 1 (rd, wr) env.p2_init sh2)
        = run_pipeline env commands nchunks nchunks 1 (rd, wr) env.p2_init sh2
      ∧ sh2.trace = sh.trace ++ new
      ∧ wiring new = [Wiring.pipe rd wr, Wiring.launch 0 0 wr, Wiring.close wr]
      ∧ ∀ d, d ∈ sh2.fds ↔ (d = rd ∨ d ∈ sh.fds) := by
    intro hz
    obtain ⟨new, hnew, hwir⟩ := htr hz
    have h1 : wr ∈ ss.2.fds := by rw [hfds, hpf]; simp
    refine ⟨{ fds := ss.2.fds.filter (fun d => d ≠ wr), child_pid := ss.2.child_pid,
              trace := ss.2.trace ++ [Event.close wr] },
      [Event.pipe rd wr] ++ new ++ [Event.close wr], ?_, ?_, ?_, ?_⟩
    · rw [unless_fails_zero _ _ hz]
      unfold then_close
      rw [close_pipe_open ss.2 wr h1]
    · simp [hnew, hpt]
    · rw [wiring_append, wiring_append, hwir]; simp [wiring]
    · intro d
      simp only [hfds, hpf, List.mem_filter, List.mem_cons, decide_eq_true_eq]
      constructor
      · rintro ⟨h | h | h, hw⟩
        · exact absurd h hw
        · exact Or.inl h
        · exact Or.inr h
      · rintro (h | h)
        · subst h; exact ⟨Or.inr (Or.inl rfl), Ne.symm hne⟩
        · refine ⟨Or.inr (Or.inr h), ?_⟩
          intro e; rw [e] at h; exact hwr h
  have hfail : ss.1 ≠ Outcome.ret 0 →
      (unless_fails ss fun sh1 => then_close sh1 wr fun sh2 =>
        run_pipeline env commands nchunks nchunks 1 (rd, wr) env.p2_init sh2).1
        ≠ Outcome.ret 0 := by
    intro hnz
    rcases hout with h | h
    · exact absurd h hnz
    · exact failed_ne_zero _ (unless_fails_failed ss _ h).1
  constructor
  · intro hz
    by_cases hs : ss.1 = Outcome.ret 0
    · obtain ⟨sh2, new, hX, htr2, hw, hf⟩ := hstep hs
      rw [hX] at hz ⊢
      have hp : (if 1 % 2 = 1 then (rd, wr).1 else env.p2_init.1) ∈ sh2.fds := by
        simp only [if_true]; exact (hf rd).mpr (Or.inl rfl)
      obtain ⟨ends, new', he, htr', hw', hf'⟩ :=
        (run_pipeline_wired env commands nchunks hno hpipe nchunks 1 (rd, wr) env.p2_init sh2
          (by omega) (by omega) hp).1 hz
      simp only [if_true] at hw' hf'
      refine ⟨(rd, wr) :: ends, new ++ new', by simp [he]; omega, ?_, ?_, ?_⟩
      · rw [htr', htr2, List.append_assoc]
      · rw [wiring_append, hw, hw']; rfl
      · intro d
        rw [hf' d, hf d]
        constructor
        · rintro ⟨h | h, hd⟩
          · exact absurd h hd
          · exact h
        · intro h
          refine ⟨Or.inr h, ?_⟩
          intro e; rw [e] at h; exact hrd h
    · exact absurd hz (hfail hs)
  · intro hall
    have hs : ss.1 = Outcome.ret 0 := hs0 hall
    obtain ⟨sh2, new, hX, htr2, hw, hf⟩ := hstep hs
    rw [hX]
    have hp : (if 1 % 2 = 1 then (rd, wr).1 else env.p2_init.1) ∈ sh2.fds := by
      simp only [if_true]; exact (hf rd).mpr (Or.inl rfl)
    exact (run_pipeline_wired env commands nchunks hno hpipe nchunks 1 (rd, wr) env.p2_init sh2
      (by omega) (by omega) hp).2 (fun j _ hjn => hall j hjn)


/-! ## The pipeline claims (C4, C5, C6) -/

theorem plain_no_ops (commands : List Stage) (h : ∀ c ∈ commands, c.plain) :
    ∀ (k : Nat) (c : Stage), commands[k]? = some c → ∀ (i : Nat) (tok : List Nat),
      (i : Int) < c.argc → c.argv[i]? = some (some tok) → tok ≠ [62] ∧ tok ≠ [60] := by
  intro k c hc i tok hi hat
  obtain ⟨tok', h1, h2, h3⟩ := (h c (List.getElem?_mem hc)).2 i hi
  rw [hat] at h1
  cases h1
  exact ⟨h2, h3⟩

theorem no_redirection_no_ops (commands : List Stage) (h : ∀ c ∈ commands, c.no_redirection) :
    ∀ (k : Nat) (c : Stage), commands[k]? = some c → ∀ (i : Nat) (tok : List Nat),
      (i : Int) < c.argc → c.argv[i]? = some (some tok) → tok ≠ [62] ∧ tok ≠ [60] := by
  intro k c hc i tok _ hat
  have := h c (List.getElem?_mem hc) (some tok) (List.getElem?_mem hat)
  exact ⟨fun e => this.1 (by rw [e]), fun e => this.2 (by rw [e])⟩

/-- C5 (as amended). For every line of `n ≥ 2` stages, each of them plain (no
redirection, no syntax error), with every `pipe` call succeeding and every
`waitpid` returning, with the pid of the child or with `EINTR` (so each stage
exits while the shell waits for it, before the next stage is launched):
`handle_line` returns 0, and the pipe
creations, `run_child` calls and closes it made are exactly `pipeline_wiring pipes`
for a list `pipes` of `n - 1` pipes: stage `i` is launched with the read end of
pipe `i - 1` (descriptor 0 for stage 0) and the write end of pipe `i`
(descriptor 1 for the last stage), stages in the order 0..n-1, and each pipe
end is closed once, right after the launch of the stage that uses it. -/
theorem pipeline_is_wired (env : Env) (sh : Shell) (line : List Nat) (n : Nat)
    (commands : List Stage) (hparse : parse_line line = Parsed.ok n commands) (hn : 2 ≤ n)
    (hplain : ∀ c ∈ commands, c.plain) (hpipe : ∀ k, env.pipe_ok k = true)
    (hwait : ∀ k, env.wait_result k = WaitResult.ok ∨ env.wait_result k = WaitResult.eintr) :
    (handle_line env sh line).1 = Outcome.ret 0
    ∧ ∃ pipes new, pipes.length = n - 1
      ∧ (handle_line env sh line).2.trace = sh.trace ++ new
      ∧ wiring new = pipeline_wiring pipes
      ∧ ∀ d, d ∈ (handle_line env sh line).2.fds ↔ d ∈ sh.fds := by
  have hlen := (parse_line_ok line n commands hparse).2
  obtain ⟨ha, hb⟩ := run_commands_wired env commands n sh (plain_no_ops commands hplain) hpipe hn
  have hz : (run_commands env sh commands n).1 = Outcome.ret 0 := by
    apply hb
    intro j hj sh1 fd_in fd_out
    have hjl : j < commands.length := by omega
    unfold start_stage
    rw [List.getElem?_eq_getElem hjl]
    simp only []
    exact start_prog_plain env sh1 j n _ commands[j] fd_in fd_out
      (hplain _ (List.getElem_mem hjl)) (hwait j)
  unfold handle_line
  rw [hparse]
  exact ⟨hz, ha hz⟩

theorem pipeline_is_wired_witness :
    (handle_line env_ok shell_start [97, 124, 98, 124, 99, 0]).1 = Outcome.ret 0
    ∧ ∃ pipes new, pipes.length = 3 - 1
      ∧ (handle_line env_ok shell_start [97, 124, 98, 124, 99, 0]).2.trace
          = shell_start.trace ++ new
      ∧ wiring new = pipeline_wiring pipes
      ∧ ∀ d, d ∈ (handle_line env_ok shell_start [97, 124, 98, 124, 99, 0]).2.fds
          ↔ d ∈ shell_start.fds :=
  pipeline_is_wired env_ok shell_start [97, 124, 98, 124, 99, 0] 3
    [{ argv := [some [97], none], argc := 1 }, { argv := [some [98], none], argc := 1 },
     { argv := [some [99], none], argc := 1 }]
    (by decide) (by decide)
    (by
      intro c hc
      simp only [List.mem_cons, List.mem_singleton, List.not_mem_nil, or_false] at hc
      rcases hc with rfl | rfl | rfl
      · exact ⟨by decide, fun i hi => by
          have : i = 0 := by simp only [] at hi; omega
          subst this; exact ⟨[97], rfl, by decide, by decide⟩⟩
      · exact ⟨by decide, fun i hi => by
          have : i = 0 := by simp only [] at hi; omega
          subst this; exact ⟨[98], rfl, by decide, by decide⟩⟩
      · exact ⟨by decide, fun i hi => by
          have : i = 0 := by simp only [] at hi; omega
          subst this; exact ⟨[99], rfl, by decide, by decide⟩⟩)
    (fun _ => rfl) (fun _ => Or.inl rfl)

/-- C5 (counterexample). On the line `a|b`, with the `pipe` call succeeding but
the `waitpid` on stage 0 failing with an error other than `EINTR`, `start_prog`
calls `exit(EXIT_FAILURE)`: stage 1 is never launched and neither end of the pipe
is closed. -/
theorem pipeline_wait_failure_counterexample :
    (handle_line env_wait_fails shell_start [97, 124, 98, 0]).1 = Outcome.exited 1
      ∧ wiring (handle_line env_wait_fails shell_start [97, 124, 98, 0]).2.trace
          = [Wiring.pipe 3 4, Wiring.launch 0 0 4] := by
  decide

/-- On the line `a|b`, with the `pipe` call succeeding but the child of stage 0
not exiting while the shell waits for it (it writes into a pipe that nobody
reads yet), `handle_line` never returns: stage 1 is never launched and neither
end of the pipe is closed. -/
theorem pipeline_wait_blocks :
    (handle_line env_wait_blocks shell_start [97, 124, 98, 0]).1 = Outcome.hang
      ∧ wiring (handle_line env_wait_blocks shell_start [97, 124, 98, 0]).2.trace
          = [Wiring.pipe 3 4, Wiring.launch 0 0 4] := by
  decide

/-- C6 (as amended). For every line in which no stage uses `"<"` or `">"`, with
every `pipe` call succeeding, on which `handle_line` returns 0: the descriptors
open in the shell when `handle_line` returns are those open when it was called
(a descriptor `d` is open afterwards exactly when it was open before). -/
theorem descriptors_restored (env : Env) (sh : Shell) (line : List Nat) (n : Nat)
    (commands : List Stage) (hparse : parse_line line = Parsed.ok n commands)
    (hno : ∀ c ∈ commands, c.no_redirection) (hpipe : ∀ k, env.pipe_ok k = true)
    (hret : (handle_line env sh line).1 = Outcome.ret 0) (d : Int) :
    d ∈ (handle_line env sh line).2.fds ↔ d ∈ sh.fds := by
  have hpos := (parse_line_ok line n commands hparse).1
  unfold handle_line at hret ⊢
  rw [hparse] at hret ⊢
  simp only [] at hret ⊢
  by_cases h1 : n = 1
  · subst h1
    unfold run_commands
    rw [if_pos rfl]
    rw [(start_stage_no_ops env sh commands 0 1 0 1 (no_redirection_no_ops commands hno 0)).1]
  · obtain ⟨ha, _⟩ := run_commands_wired env commands n sh (no_redirection_no_ops commands hno)
      hpipe (by omega)
    obtain ⟨_, _, _, _, _, hf⟩ := ha hret
    exact hf d


theorem descriptors_restored_witness :
    (3 : Int) ∈ (handle_line env_ok shell_start [97, 124, 98, 0]).2.fds
      ↔ (3 : Int) ∈ shell_start.fds :=
  descriptors_restored env_ok shell_start [97, 124, 98, 0] 2
    [{ argv := [some [97], none], argc := 1 }, { argv := [some [98], none], argc := 1 }]
    (by decide) (by simp [Stage.no_redirection]) (fun _ => rfl) (by decide) 3

/-- C6 (counterexample). On the line `a < f`, with every call succeeding,
`handle_line` returns 0 and descriptor 3, which `open` returned for the
redirection and which was not open before, is still open in the shell. -/
theorem redirection_leak_counterexample :
    (handle_line env_ok shell_start [97, 32, 60, 32, 102, 0]).1 = Outcome.ret 0
      ∧ (3 : Int) ∈ (handle_line env_ok shell_start [97, 32, 60, 32, 102, 0]).2.fds
      ∧ (3 : Int) ∉ shell_start.fds := by
  decide

end MyShell
